import Mathlib

/-!
Verification of the hex-grid board-game engine in src/games/puzzle-curator.js
(the full-featured copy of the engine, with mosquito / ladybug / pillbug and
tournament rules).  The JavaScript source is shallowly embedded:
the global mutable gameState becomes an explicit GameState value threaded
through the functions, JavaScript Maps keyed by the string "q,r" become
association lists keyed by the (decidable-equality) Hex value itself
(Hex.toString is injective on integer coordinates), and the unbounded
while-loops of the searches become fueled structural recursions whose fuel
is provably sufficient where a claim depends on it.
-/

namespace Hive

/-- Axial hexagonal coordinate: the Hex class of the source. -/
structure Hex where
  q : Int
  r : Int
deriving DecidableEq

/-- The six fixed direction offsets shared by Hex.getNeighbors and
findHopperPath, in the source's order: E, NE, NW, W, SW, SE. -/
def hexDirections : List Hex :=
  [⟨1, 0⟩, ⟨1, -1⟩, ⟨0, -1⟩, ⟨-1, 0⟩, ⟨-1, 1⟩, ⟨0, 1⟩]

/-- Coordinatewise addition, used to step in a direction. -/
def Hex.add (a b : Hex) : Hex := ⟨a.q + b.q, a.r + b.r⟩

/-- Hex.getNeighbors from the source: the six adjacent coordinates in the
fixed direction order. -/
def Hex.getNeighbors (h : Hex) : List Hex :=
  hexDirections.map (fun d => ⟨h.q + d.q, h.r + d.r⟩)

/-- Hex.distance from the source.  The sum of the three absolute
differences is always even, so the JavaScript real division by 2 agrees
with natural division here. -/
def Hex.distance (a b : Hex) : Nat :=
  ((a.q - b.q).natAbs + (a.r - b.r).natAbs +
    ((a.q + a.r) - (b.q + b.r)).natAbs) / 2

theorem Hex.ext_iff' {a b : Hex} : a = b ↔ a.q = b.q ∧ a.r = b.r := by
  cases a; cases b; simp

theorem Hex.mem_getNeighbors {h n : Hex} :
    n ∈ h.getNeighbors ↔
      n = ⟨h.q + 1, h.r⟩ ∨ n = ⟨h.q + 1, h.r - 1⟩ ∨ n = ⟨h.q, h.r - 1⟩ ∨
      n = ⟨h.q - 1, h.r⟩ ∨ n = ⟨h.q - 1, h.r + 1⟩ ∨ n = ⟨h.q, h.r + 1⟩ := by
  simp [Hex.getNeighbors, hexDirections]
  constructor
  · rintro (h | h | h | h | h | h) <;> subst h <;> simp [Hex.ext_iff'] <;> omega
  · rintro (h | h | h | h | h | h) <;> subst h <;>
      simp [Hex.ext_iff'] <;> omega

theorem Hex.getNeighbors_symm {a b : Hex} :
    b ∈ a.getNeighbors → a ∈ b.getNeighbors := by
  simp only [Hex.mem_getNeighbors, Hex.ext_iff']
  omega

theorem Hex.self_not_mem_getNeighbors (h : Hex) : h ∉ h.getNeighbors := by
  simp only [Hex.mem_getNeighbors, Hex.ext_iff']
  omega

theorem Hex.getNeighbors_nodup (h : Hex) : h.getNeighbors.Nodup := by
  simp [Hex.getNeighbors, hexDirections, List.nodup_cons, Hex.ext_iff']

theorem Hex.distance_eq_one_iff {a b : Hex} :
    a.distance b = 1 ↔ b ∈ a.getNeighbors := by
  simp only [Hex.mem_getNeighbors, Hex.ext_iff', Hex.distance]
  omega

theorem Hex.distance_self (a : Hex) : a.distance a = 0 := by
  simp [Hex.distance]

/-- The two players; the source uses the numbers 1 and 2. -/
inductive Player where
  | one
  | two
deriving DecidableEq

/-- The opponent of a player (the source's currentPlayer === 1 ? 2 : 1). -/
def Player.other : Player → Player
  | .one => .two
  | .two => .one

/-- The closed set of insect kinds of INSECT_TYPES. -/
inductive InsectKind where
  | queen
  | ant
  | beetle
  | hopper
  | spider
  | mosquito
  | ladybug
  | pillbug
deriving DecidableEq

/-- A placed piece: the {player, insect, id} objects of the source.  The
source's string identifiers are modelled by natural numbers; only equality
of identifiers is ever consulted. -/
structure Insect where
  player : Player
  insect : InsectKind
  id : Nat
deriving DecidableEq

/-- gameState.board: a JavaScript Map from hex key to the stack of insects
on that hex (bottom first, top last), modelled as an association list in
Map insertion order.  Hex.toString is injective, so keying by Hex is
faithful. -/
abbrev Board := List (Hex × List Insect)

namespace Board

/-- getInsectStack: the stack at a hex, or the empty list. -/
def getInsectStack (b : Board) (h : Hex) : List Insect :=
  ((b.find? (fun e => e.1 = h)).map (·.2)).getD []

/-- isHexOccupied: the hex has a nonempty stack. -/
def isHexOccupied (b : Board) (h : Hex) : Bool :=
  !(b.getInsectStack h).isEmpty

/-- getTopInsect: the last element of the stack at a hex. -/
def getTopInsect (b : Board) (h : Hex) : Option Insect :=
  (b.getInsectStack h).getLast?

/-- The list of occupied hexes in Map iteration order (board.keys()). -/
def keys (b : Board) : List Hex := b.map (·.1)

/-- addInsectToHex: push onto an existing stack, or create a new entry at
the end of the map (JavaScript Map.set appends new keys in insertion
order). -/
def addInsectToHex (b : Board) (h : Hex) (i : Insect) : Board :=
  if b.any (fun e => e.1 = h) then
    b.map (fun e => if e.1 = h then (e.1, e.2 ++ [i]) else e)
  else
    b ++ [(h, [i])]

/-- The splice performed by moveInsect: remove the first insect with the
given identifier from the stack at the given hex, deleting the entry when
the stack becomes empty. -/
def spliceInsect (b : Board) (h : Hex) (id : Nat) : Board :=
  b.filterMap (fun e =>
    if e.1 = h then
      let st := e.2.eraseP (fun bug => bug.id = id)
      if st.isEmpty then none else some (e.1, st)
    else some e)

/-- Representation invariant of a JavaScript Map of nonempty stacks: keys
are distinct and no stack is stored empty (an emptied stack is deleted at
once). -/
def WF (b : Board) : Prop :=
  (keys b).Nodup ∧ ∀ e ∈ b, e.2 ≠ []

instance : DecidablePred WF := fun b => by
  unfold WF; infer_instance

theorem WF.keys_nodup {b : Board} (h : WF b) : (keys b).Nodup := h.1

theorem WF.stacks_ne_nil {b : Board} (h : WF b) : ∀ e ∈ b, e.2 ≠ [] := h.2

theorem WF.tail {e : Hex × List Insect} {t : Board} (h : WF (e :: t)) :
    WF t :=
  ⟨(List.nodup_cons.1 h.1).2, fun x hx => h.2 x (List.mem_cons_of_mem e hx)⟩

/-- On a well-formed board, the lookup of an entry's key returns that
entry. -/
theorem find?_key_of_mem {b : Board} (hWF : WF b)
    {e : Hex × List Insect} (he : e ∈ b) :
    b.find? (fun x => x.1 = e.1) = some e := by
  induction b with
  | nil => cases he
  | cons f t ih =>
    rcases List.mem_cons.1 he with rfl | het
    · exact List.find?_cons_of_pos _ (by simp)
    · have hne : f.1 ≠ e.1 := by
        intro hcontra
        have h1 : f.1 ∉ keys t := (List.nodup_cons.1 hWF.keys_nodup).1
        exact h1 (hcontra ▸ List.mem_map.2 ⟨e, het, rfl⟩)
      rw [List.find?_cons_of_neg _ (by simpa using hne)]
      exact ih hWF.tail het

theorem getInsectStack_of_mem {b : Board} (hWF : WF b)
    {e : Hex × List Insect} (he : e ∈ b) :
    getInsectStack b e.1 = e.2 := by
  unfold getInsectStack
  rw [find?_key_of_mem hWF he]
  rfl

theorem getInsectStack_eq_nil_of_not_mem {b : Board} {h : Hex}
    (hn : h ∉ keys b) : getInsectStack b h = [] := by
  unfold getInsectStack
  rw [List.find?_eq_none.2]
  · rfl
  · intro e he
    simp only [decide_eq_true_eq]
    intro hcontra
    exact hn (hcontra ▸ List.mem_map.2 ⟨e, he, rfl⟩)

theorem mem_keys_of_isHexOccupied {b : Board} {h : Hex}
    (hocc : isHexOccupied b h = true) : h ∈ keys b := by
  by_contra hn
  rw [isHexOccupied, getInsectStack_eq_nil_of_not_mem hn] at hocc
  simp at hocc

theorem isHexOccupied_of_mem_keys {b : Board} (hWF : WF b) {h : Hex}
    (hmem : h ∈ keys b) : isHexOccupied b h = true := by
  rcases List.mem_map.1 hmem with ⟨e, he, rfl⟩
  rw [isHexOccupied, getInsectStack_of_mem hWF he]
  simpa using hWF.stacks_ne_nil e he

theorem getInsectStack_ne_nil_iff {b : Board} (hWF : WF b) {h : Hex} :
    getInsectStack b h ≠ [] ↔ h ∈ keys b := by
  constructor
  · intro hne
    by_contra hn
    exact hne (getInsectStack_eq_nil_of_not_mem hn)
  · intro hmem
    rcases List.mem_map.1 hmem with ⟨e, he, rfl⟩
    rw [getInsectStack_of_mem hWF he]
    exact hWF.stacks_ne_nil e he

theorem getTopInsect_isSome_iff {b : Board} (hWF : WF b) {h : Hex} :
    (getTopInsect b h).isSome = true ↔ h ∈ keys b := by
  rw [getTopInsect, List.getLast?_isSome]
  exact getInsectStack_ne_nil_iff hWF

end Board

/-- Two complementary predicates count up to the length of the list. -/
theorem countP_add_countP_compl {l : List Hex} {p q : Hex → Bool}
    (h : ∀ x ∈ l, p x = !q x) :
    l.countP p + l.countP q = l.length := by
  induction l with
  | nil => simp
  | cons a t ih =>
    have ha := h a (by simp)
    have ht := ih (fun x hx => h x (List.mem_cons_of_mem a hx))
    rw [List.countP_cons, List.countP_cons, List.length_cons]
    cases hq : q a <;> rw [hq] at ha <;> simp [ha] <;> omega

/-- The recurring test stack.length === 1 && stack[0].id === movingInsectId:
the stack holds exactly the moving insect, so it will be empty once the
move is made. -/
def onlyMovingInsect (stack : List Insect) (movingId : Nat) : Bool :=
  match stack with
  | [i] => i.id = movingId
  | _ => false

/-- touchesHive: the hex has at least one occupied neighbor, not counting
the optional excluded hex and not counting a stack holding only the moving
insect. -/
def touchesHive (b : Board) (hex : Hex) (movingId : Nat)
    (excludeHex : Option Hex) : Bool :=
  hex.getNeighbors.any fun n =>
    if excludeHex = some n then false
    else
      let stack := b.getInsectStack n
      if stack.isEmpty then false
      else !(onlyMovingInsect stack movingId)

/-- isGate: both common neighbors of the two adjacent hexes are occupied
(by something other than the moving insect standing alone). -/
def isGate (b : Board) (fromHex toHex : Hex) (movingId : Nat) : Bool :=
  let commonNeighbors := fromHex.getNeighbors.filter
    (fun f => toHex.getNeighbors.any (fun t => f = t))
  if commonNeighbors.length ≠ 2 then false
  else
    let occupiedCount := commonNeighbors.countP fun c =>
      let stack := b.getInsectStack c
      !stack.isEmpty && !(onlyMovingInsect stack movingId)
    occupiedCount = 2

/-- getWalkingNeighbors: the neighbors a piece can slide to.  In the
source both sub-branches of the occupancy test continue, so any occupied
neighbor is skipped; then the gate test and the contact test are applied.
The source builds the list by pushing in neighbor order, which is a
filter. -/
def getWalkingNeighbors (b : Board) (hex : Hex) (movingId : Nat) :
    List Hex :=
  hex.getNeighbors.filter fun n =>
    if b.isHexOccupied n then false
    else if isGate b hex n movingId then false
    else touchesHive b n movingId (some hex)

/-- The { success, path, blockedAt } records returned by the validators.
copiedFrom and isPillbugThrow are the extra tags the mosquito and throw
validators attach. -/
structure PathResult where
  success : Bool
  path : List Hex
  blockedAt : Option Hex
  copiedFrom : Option InsectKind := none
  isPillbugThrow : Bool := false
deriving DecidableEq

/-- The BFS loop of findAntPath.  The JavaScript visited set is threaded
explicitly; marking neighbors one by one while iterating equals filtering
against the set before appending, because the six neighbors of a hex are
pairwise distinct.  The outer Option is fuel exhaustion, which
findAntPath's fuel provably never reaches. -/
def antBFSAux (b : Board) (toHex : Hex) (movingId : Nat) :
    Nat → List (Hex × List Hex) → List Hex →
      Option (Option (List Hex) × List Hex)
  | 0, _, _ => none
  | _ + 1, [], visited => some (none, visited)
  | fuel + 1, (h, p) :: rest, visited =>
    if h = toHex then some (some p, visited)
    else
      let ns := (getWalkingNeighbors b h movingId).filter
        (fun n => !visited.contains n)
      antBFSAux b toHex movingId fuel
        (rest ++ ns.map (fun n => (n, p ++ [n]))) (visited ++ ns)

/-- Fuel for the ant search: every enqueued hex is a walking neighbor of
something and hence adjacent to an occupied hex, so at most
6 * (number of occupied hexes) + 1 hexes are ever enqueued. -/
def antFuel (b : Board) : Nat := 6 * b.length + 3

/-- The BFS loop of findLongestPathToward, tracking the explored path that
ends nearest the target (ties broken by longer path). -/
def longestBFSAux (b : Board) (toHex : Hex) (movingId : Nat) :
    Nat → List (Hex × List Hex) → List Hex → List Hex × Nat → List Hex
  | 0, _, _, best => best.1
  | _ + 1, [], _, best => best.1
  | fuel + 1, (h, p) :: rest, visited, best =>
    let d := h.distance toHex
    let best' :=
      if d < best.2 ∨ (d = best.2 ∧ best.1.length < p.length) then (p, d)
      else best
    let ns := (getWalkingNeighbors b h movingId).filter
      (fun n => !visited.contains n)
    longestBFSAux b toHex movingId fuel
      (rest ++ ns.map (fun n => (n, p ++ [n]))) (visited ++ ns) best'

/-- findLongestPathToward: the best partial path used for UI feedback when
the ant search fails. -/
def findLongestPathToward (b : Board) (fromHex toHex : Hex)
    (movingId : Nat) : List Hex :=
  longestBFSAux b toHex movingId (antFuel b) [(fromHex, [fromHex])]
    [fromHex] ([fromHex], fromHex.distance toHex)

/-- findAntPath: breadth-first search over the walking-step graph. -/
def findAntPath (b : Board) (fromHex toHex : Hex) (movingId : Nat) :
    PathResult :=
  match antBFSAux b toHex movingId (antFuel b) [(fromHex, [fromHex])]
      [fromHex] with
  | some (some p, _) => { success := true, path := p, blockedAt := none }
  | _ =>
    let longest := findLongestPathToward b fromHex toHex movingId
    { success := false, path := longest, blockedAt := longest.getLast? }

/-- findQueenPath: exactly one walking step. -/
def findQueenPath (b : Board) (fromHex toHex : Hex) (movingId : Nat) :
    PathResult :=
  if fromHex.distance toHex ≠ 1 then
    { success := false, path := [fromHex], blockedAt := some fromHex }
  else if (getWalkingNeighbors b fromHex movingId).any (fun n => n = toHex)
  then { success := true, path := [fromHex, toHex], blockedAt := none }
  else { success := false, path := [fromHex], blockedAt := some fromHex }

/-- findPillbugPath: the pillbug's own movement, identical to the queen's. -/
def findPillbugPath (b : Board) (fromHex toHex : Hex) (movingId : Nat) :
    PathResult :=
  if fromHex.distance toHex ≠ 1 then
    { success := false, path := [fromHex], blockedAt := some fromHex }
  else if (getWalkingNeighbors b fromHex movingId).any (fun n => n = toHex)
  then { success := true, path := [fromHex, toHex], blockedAt := none }
  else { success := false, path := [fromHex], blockedAt := some fromHex }

/-- The recurring test stack nonempty and not just the moving insect:
occupied from the moving piece's point of view. -/
def occupiedIgnoring (b : Board) (movingId : Nat) (h : Hex) : Bool :=
  !(Board.getInsectStack b h).isEmpty &&
    !(onlyMovingInsect (Board.getInsectStack b h) movingId)

/-- canBeetleMoveOnHive: a beetle on top of a stack may move to any
occupied neighbor; to an empty neighbor it needs an occupied common
neighbor, or failing that the destination must touch the hive. -/
def canBeetleMoveOnHive (b : Board) (fromHex toHex : Hex)
    (movingId : Nat) : Bool :=
  if occupiedIgnoring b movingId toHex then true
  else
    let commonNeighbors := fromHex.getNeighbors.filter
      (fun f => toHex.getNeighbors.any (fun t => f = t))
    if commonNeighbors.any (fun c => occupiedIgnoring b movingId c) then true
    else touchesHive b toHex movingId (some fromHex)

/-- getBeetleNeighbors: the beetle's one-step destinations, distinguishing
a beetle on top of a stack from one on the ground. -/
def getBeetleNeighbors (b : Board) (fromHex : Hex) (movingId : Nat) :
    List Hex :=
  let fromStack := b.getInsectStack fromHex
  let isOnTop := fromStack.length > 1
  fromHex.getNeighbors.filter fun n =>
    if isOnTop then canBeetleMoveOnHive b fromHex n movingId
    else if occupiedIgnoring b movingId n then true
    else !(isGate b fromHex n movingId) &&
      touchesHive b n movingId (some fromHex)

/-- findBeetlePath: exactly one step, using getBeetleNeighbors. -/
def findBeetlePath (b : Board) (fromHex toHex : Hex) (movingId : Nat) :
    PathResult :=
  if fromHex.distance toHex ≠ 1 then
    { success := false, path := [fromHex], blockedAt := some fromHex }
  else if (getBeetleNeighbors b fromHex movingId).any (fun n => n = toHex)
  then { success := true, path := [fromHex, toHex], blockedAt := none }
  else { success := false, path := [fromHex], blockedAt := some fromHex }

/-- The test !isOccupied || isMovingInsectOnly of findHopperLanding: the
hex counts as empty for the jumping piece. -/
def hopperEmptyAt (b : Board) (movingId : Nat) (h : Hex) : Bool :=
  !(Board.isHexOccupied b h) ||
    onlyMovingInsect (Board.getInsectStack b h) movingId

/-- The straight-line advance of findHopperLanding.  The source walks
while the current hex is occupied (a stack holding only the moving insect
counting as empty), incrementing jumpedOverCount, and gives up after more
than 50 jumped pieces.  The count rises by one per recursive call, so fuel
52 is never exhausted. -/
def findHopperLandingAux (b : Board) (movingId : Nat) (dir : Hex) :
    Nat → Hex → Nat → Option Hex
  | 0, _, _ => none
  | fuel + 1, cur, count =>
    if hopperEmptyAt b movingId cur then
      if count = 0 then none else some cur
    else if count + 1 > 50 then none
    else findHopperLandingAux b movingId dir fuel (cur.add dir) (count + 1)

/-- findHopperLanding: where a grasshopper jumping in a direction lands. -/
def findHopperLanding (b : Board) (fromHex : Hex) (dir : Hex)
    (movingId : Nat) : Option Hex :=
  findHopperLandingAux b movingId dir 52 (fromHex.add dir) 0

/-- The loop of buildHopperJumpPath, collecting the jumped-over hexes; the
fuel matches the 50-piece bound of the landing search. -/
def buildHopperJumpAux (dir toHex : Hex) : Nat → Hex → List Hex
  | 0, _ => []
  | fuel + 1, cur =>
    if cur = toHex then []
    else cur :: buildHopperJumpAux dir toHex fuel (cur.add dir)

/-- buildHopperJumpPath: the visual path of a grasshopper jump. -/
def buildHopperJumpPath (fromHex toHex dir : Hex) : List Hex :=
  fromHex :: buildHopperJumpAux dir toHex 52 (fromHex.add dir) ++ [toHex]

/-- findHopperPath: try all six directions; the first whose landing is the
target yields success. -/
def findHopperPath (b : Board) (fromHex toHex : Hex) (movingId : Nat) :
    PathResult :=
  match hexDirections.find?
      (fun d => findHopperLanding b fromHex d movingId = some toHex) with
  | some d =>
    { success := true, path := buildHopperJumpPath fromHex toHex d,
      blockedAt := none }
  | none => { success := false, path := [fromHex], blockedAt := some fromHex }

/-- The BFS loop of findSpiderPath: explore exactly three walking steps,
forbidding revisits within the current path, with the visited set keyed by
(hex, step); accumulate every 3-step path ending at the target in dequeue
order. -/
def spiderBFSAux (b : Board) (toHex : Hex) (movingId : Nat) :
    Nat → List (Hex × List Hex) → List (Hex × Nat) → List (List Hex) →
      List (List Hex)
  | 0, _, _, acc => acc
  | _ + 1, [], _, acc => acc
  | fuel + 1, (h, p) :: rest, visited, acc =>
    let steps := p.length - 1
    if steps = 3 then
      spiderBFSAux b toHex movingId fuel rest visited
        (if h = toHex then acc ++ [p] else acc)
    else if steps < 3 then
      let ns := (getWalkingNeighbors b h movingId).filter
        (fun n => !visited.contains (n, steps + 1) && !p.contains n)
      spiderBFSAux b toHex movingId fuel
        (rest ++ ns.map (fun n => (n, p ++ [n])))
        (visited ++ ns.map (fun n => (n, steps + 1))) acc
    else spiderBFSAux b toHex movingId fuel rest visited acc

/-- Fuel for the depth-bounded searches: at most four steps' worth of
candidate hexes can ever be enqueued. -/
def spiderFuel (b : Board) : Nat := 4 * (6 * b.length + 1) + 2

/-- The BFS loop of findLongestSpiderPathToward. -/
def longestSpiderAux (b : Board) (toHex : Hex) (movingId : Nat) :
    Nat → List (Hex × List Hex) → List (Hex × Nat) → List Hex × Nat →
      List Hex
  | 0, _, _, best => best.1
  | _ + 1, [], _, best => best.1
  | fuel + 1, (h, p) :: rest, visited, best =>
    let steps := p.length - 1
    let d := h.distance toHex
    let best' :=
      if d < best.2 ∨ (d = best.2 ∧ best.1.length < p.length) then (p, d)
      else best
    if steps < 3 then
      let ns := (getWalkingNeighbors b h movingId).filter
        (fun n => !visited.contains (n, steps + 1) && !p.contains n)
      longestSpiderAux b toHex movingId fuel
        (rest ++ ns.map (fun n => (n, p ++ [n])))
        (visited ++ ns.map (fun n => (n, steps + 1))) best'
    else longestSpiderAux b toHex movingId fuel rest visited best'

/-- findLongestSpiderPathToward: the best partial spider path. -/
def findLongestSpiderPathToward (b : Board) (fromHex toHex : Hex)
    (movingId : Nat) : List Hex :=
  longestSpiderAux b toHex movingId (spiderFuel b) [(fromHex, [fromHex])]
    [(fromHex, 0)] ([fromHex], fromHex.distance toHex)

/-- findSpiderPath: exactly three non-repeating walking steps. -/
def findSpiderPath (b : Board) (fromHex toHex : Hex) (movingId : Nat) :
    PathResult :=
  match spiderBFSAux b toHex movingId (spiderFuel b) [(fromHex, [fromHex])]
      [(fromHex, 0)] [] with
  | p :: _ => { success := true, path := p, blockedAt := none }
  | [] =>
    let best := findLongestSpiderPathToward b fromHex toHex movingId
    { success := false, path := best, blockedAt := best.getLast? }

/-- getLadybugStepOneNeighbors: climb onto an occupied neighbor. -/
def getLadybugStepOneNeighbors (b : Board) (fromHex : Hex)
    (movingId : Nat) : List Hex :=
  fromHex.getNeighbors.filter fun n =>
    let stack := b.getInsectStack n
    !stack.isEmpty && !(onlyMovingInsect stack movingId)

/-- getLadybugStepTwoNeighbors: move across on top of the hive. -/
def getLadybugStepTwoNeighbors (b : Board) (fromHex : Hex)
    (movingId : Nat) : List Hex :=
  fromHex.getNeighbors.filter fun n =>
    let stack := b.getInsectStack n
    !stack.isEmpty && !(onlyMovingInsect stack movingId)

/-- getLadybugStepThreeNeighbors: climb down to an empty neighbor that
still touches the hive. -/
def getLadybugStepThreeNeighbors (b : Board) (fromHex : Hex)
    (movingId : Nat) (originalFromHex : Hex) : List Hex :=
  fromHex.getNeighbors.filter fun n =>
    let stack := b.getInsectStack n
    (stack.isEmpty || onlyMovingInsect stack movingId) &&
      touchesHive b n movingId (some originalFromHex)

/-- The BFS loop of findLadybugPath: three steps with a distinct neighbor
rule at each depth, visited keyed by (hex, step). -/
def ladybugBFSAux (b : Board) (origin toHex : Hex) (movingId : Nat) :
    Nat → List (Hex × List Hex × Nat) → List (Hex × Nat) →
      List (List Hex) → List (List Hex)
  | 0, _, _, acc => acc
  | _ + 1, [], _, acc => acc
  | fuel + 1, (h, p, step) :: rest, visited, acc =>
    if step = 3 then
      ladybugBFSAux b origin toHex movingId fuel rest visited
        (if h = toHex then acc ++ [p] else acc)
    else
      let ns :=
        if step = 0 then getLadybugStepOneNeighbors b h movingId
        else if step = 1 then getLadybugStepTwoNeighbors b h movingId
        else if step = 2 then getLadybugStepThreeNeighbors b h movingId origin
        else []
      let ns' := ns.filter (fun n => !visited.contains (n, step + 1))
      ladybugBFSAux b origin toHex movingId fuel
        (rest ++ ns'.map (fun n => (n, p ++ [n], step + 1)))
        (visited ++ ns'.map (fun n => (n, step + 1))) acc

/-- findLadybugPath: climb on, move across, climb down. -/
def findLadybugPath (b : Board) (fromHex toHex : Hex) (movingId : Nat) :
    PathResult :=
  match ladybugBFSAux b fromHex toHex movingId (spiderFuel b)
      [(fromHex, [fromHex], 0)] [(fromHex, 0)] [] with
  | p :: _ => { success := true, path := p, blockedAt := none }
  | [] => { success := false, path := [fromHex], blockedAt := some fromHex }

/-- getMosquitoAdjacentInsects: the distinct insect kinds on top of the
stacks adjacent to the mosquito, in first-encounter order (a JavaScript
Set preserves insertion order), excluding the mosquito itself and the
mosquito kind. -/
def getMosquitoAdjacentInsects (b : Board) (fromHex : Hex)
    (movingId : Nat) : List InsectKind :=
  fromHex.getNeighbors.foldl
    (fun acc n =>
      match (b.getInsectStack n).getLast? with
      | none => acc
      | some top =>
        if top.id = movingId then acc
        else if top.insect = .mosquito then acc
        else if acc.contains top.insect then acc
        else acc ++ [top.insect]) []

/-- findMosquitoPath: try each adjacent kind's validator in order and
return the first success, tagged with the copied kind. -/
def findMosquitoPath (b : Board) (fromHex toHex : Hex) (movingId : Nat) :
    PathResult :=
  let adjacentInsects := getMosquitoAdjacentInsects b fromHex movingId
  if adjacentInsects.isEmpty then
    { success := false, path := [fromHex], blockedAt := some fromHex }
  else
    match adjacentInsects.findSome? (fun k =>
      let result : Option PathResult :=
        match k with
        | .queen => some (findQueenPath b fromHex toHex movingId)
        | .ant => some (findAntPath b fromHex toHex movingId)
        | .beetle => some (findBeetlePath b fromHex toHex movingId)
        | .hopper => some (findHopperPath b fromHex toHex movingId)
        | .spider => some (findSpiderPath b fromHex toHex movingId)
        | .ladybug => some (findLadybugPath b fromHex toHex movingId)
        | .pillbug => some (findPillbugPath b fromHex toHex movingId)
        | .mosquito => none
      match result with
      | some r => if r.success then some { r with copiedFrom := some k }
                  else none
      | none => none) with
    | some r => r
    | none => { success := false, path := [fromHex], blockedAt := some fromHex }

/-- The shared flood-fill loop of wouldSplitHive and
isHiveConnectedWithout: pop a hex, push its not-yet-visited neighbors
that satisfy the occupancy condition.  Marking while iterating equals
filtering, because the six neighbors are pairwise distinct. -/
def floodAux (ok : Hex → Bool) : Nat → List Hex → List Hex → List Hex
  | 0, _, visited => visited
  | _ + 1, [], visited => visited
  | fuel + 1, cur :: rest, visited =>
    let ns := cur.getNeighbors.filter (fun n => ok n && !visited.contains n)
    floodAux ok fuel (rest ++ ns) (visited ++ ns)

/-- The occupied hexes other than the one being vacated, as collected by
wouldSplitHive (the hex is dropped entirely, whatever its stack held). -/
def occupiedExcept (b : Board) (hexToRemove : Hex) : List Hex :=
  b.filterMap fun e =>
    if e.1 = hexToRemove then none
    else if e.2.isEmpty then none
    else some e.1

/-- wouldSplitHive: list the occupied hexes other than the removed one,
flood-fill from the first, and report a split when not everything was
reached.  The source's second parameter (the piece identifier) is unused
by its body and is omitted. -/
def wouldSplitHive (b : Board) (hexToRemove : Hex) : Bool :=
  if (b.getInsectStack hexToRemove).isEmpty then false
  else
    let occupiedHexes := occupiedExcept b hexToRemove
    match occupiedHexes with
    | [] => false
    | start :: _ =>
      let visited := floodAux
        (fun n => n ≠ hexToRemove && occupiedHexes.contains n)
        (occupiedHexes.length + 1) [start] [start]
      visited.length ≠ occupiedHexes.length

/-- The hexes that stay occupied when the moving insect leaves its hex, as
collected by isHiveConnectedWithout: the vacated hex is kept only when its
stack holds more than one insect. -/
def remainingAfter (b : Board) (excludeHex : Hex) : List Hex :=
  b.filterMap fun e =>
    if e.1 = excludeHex then
      if e.2.length > 1 then some e.1 else none
    else some e.1

/-- isHiveConnectedWithout: the remaining hexes form one flood-fill
component.  The insect-identifier parameter of the source is unused by its
body and is omitted. -/
def isHiveConnectedWithout (b : Board) (excludeHex : Hex) : Bool :=
  let remainingHexes := remainingAfter b excludeHex
  if remainingHexes.length ≤ 1 then true
  else
    match remainingHexes with
    | [] => true
    | start :: _ =>
      let visited := floodAux (fun n => remainingHexes.contains n)
        (remainingHexes.length + 1) [start] [start]
      visited.length = remainingHexes.length

/-- canPillbugThrowPiece: the thrown piece is adjacent to the thrower,
stands alone on its hex, and removing it does not split the hive. -/
def canPillbugThrowPiece (b : Board) (pillbugHex pieceHex : Hex)
    ( _pieceId : Nat) : Bool :=
  if pillbugHex.distance pieceHex ≠ 1 then false
  else
    let stack := b.getInsectStack pieceHex
    if stack.isEmpty then false
    else if stack.length > 1 then false
    else !(wouldSplitHive b pieceHex)

/-- getPillbugThrowDestinations: the thrower's neighbors that are not the
thrown piece's hex, are empty (or hold only the thrown piece), and touch
the hive ignoring the thrown piece's current hex. -/
def getPillbugThrowDestinations (b : Board) (pillbugHex thrownPieceHex : Hex)
    (thrownPieceId : Nat) : List Hex :=
  pillbugHex.getNeighbors.filter fun n =>
    if n = thrownPieceHex then false
    else
      let stack := b.getInsectStack n
      (stack.isEmpty || onlyMovingInsect stack thrownPieceId) &&
        touchesHive b n thrownPieceId (some thrownPieceHex)

/-- findPillbugThatCanThrow: the first hex (in map order) whose top piece
is the current player's pillbug able to throw the piece. -/
def findPillbugThatCanThrow (b : Board) (pieceHex : Hex) (pieceId : Nat)
    (currentPlayer : Player) : Option (Insect × Hex) :=
  b.findSome? fun e =>
    match e.2.getLast? with
    | none => none
    | some topInsect =>
      if topInsect.player = currentPlayer ∧ topInsect.insect = .pillbug then
        if canPillbugThrowPiece b e.1 pieceHex pieceId then
          some (topInsect, e.1)
        else none
      else none

/-- findMosquitoThatCanThrow: the first hex whose top piece is the current
player's mosquito standing next to a pillbug and able to throw the
piece. -/
def findMosquitoThatCanThrow (b : Board) (pieceHex : Hex) (pieceId : Nat)
    (currentPlayer : Player) : Option (Insect × Hex) :=
  b.findSome? fun e =>
    match e.2.getLast? with
    | none => none
    | some topInsect =>
      if topInsect.player = currentPlayer ∧ topInsect.insect = .mosquito then
        if (getMosquitoAdjacentInsects b e.1 topInsect.id).contains
            .pillbug then
          if canPillbugThrowPiece b e.1 pieceHex pieceId then
            some (topInsect, e.1)
          else none
        else none
      else none

/-- findPillbugThrowPath: success when the target is one of the throw
destinations. -/
def findPillbugThrowPath (b : Board) (pillbugHex fromHex toHex : Hex)
    (pieceId : Nat) : PathResult :=
  if (getPillbugThrowDestinations b pillbugHex fromHex pieceId).any
      (fun d => d = toHex) then
    { success := true, path := [fromHex, pillbugHex, toHex],
      blockedAt := none, isPillbugThrow := true }
  else
    { success := false, path := [fromHex], blockedAt := some fromHex,
      isPillbugThrow := false }

/-- The gameConfig flags consumed by the engine. -/
structure Config where
  expansionMosquito : Bool
  expansionLadybug : Bool
  expansionPillbug : Bool
  tournamentRules : Bool
deriving DecidableEq

/-- The per-kind piece counts of INSECT_TYPES. -/
def insectCount : InsectKind → Int
  | .queen => 1
  | .ant => 3
  | .beetle => 2
  | .hopper => 3
  | .spider => 2
  | .mosquito => 1
  | .ladybug => 1
  | .pillbug => 1

/-- Which kinds are expansion pieces in INSECT_TYPES. -/
def isExpansion : InsectKind → Bool
  | .mosquito => true
  | .ladybug => true
  | .pillbug => true
  | _ => false

/-- The engine-relevant fields of the global gameState (rendering-only
statistics such as moveHistory, whose entries carry wall-clock timestamps,
are presentation state and are not modelled). -/
structure GameState where
  board : Board
  hand : Player → InsectKind → Int
  currentPlayer : Player
  gameOver : Bool
  winner : Option Player
  turn : Nat
  queenPlaced : Player → Bool
  turnCount : Player → Nat
  config : Config

/-- initializeHand: full counts, with disabled expansion kinds set to 0. -/
def initializeHand (config : Config) : Player → InsectKind → Int :=
  fun _ kind =>
    if isExpansion kind then
      if (kind = .mosquito ∧ config.expansionMosquito) ∨
         (kind = .ladybug ∧ config.expansionLadybug) ∨
         (kind = .pillbug ∧ config.expansionPillbug) then insectCount kind
      else 0
    else insectCount kind

/-- The freshly initialized gameState. -/
def initialState (config : Config) : GameState where
  board := []
  hand := initializeHand config
  currentPlayer := .one
  gameOver := false
  winner := none
  turn := 0
  queenPlaced := fun _ => false
  turnCount := fun _ => 0
  config := config

/-- The per-player piece count computed by canPlaceInsect's loop over the
board: one per occupied hex whose top piece belongs to the player. -/
def topPieceCount (b : Board) (p : Player) : Nat :=
  (Board.keys b).countP fun k =>
    (Board.getTopInsect b k).any fun i => i.player = p

/-- canPlaceInsect: the placement-adjacency rule, deciding everything from
the top piece of each stack. -/
def canPlaceInsect (s : GameState) (hex : Hex) : Bool :=
  let opponentPlayer := s.currentPlayer.other
  let currentPlayer := s.currentPlayer
  let currentPlayerPieces := topPieceCount s.board currentPlayer
  let opponentPieces := topPieceCount s.board opponentPlayer
  let neighbors := hex.getNeighbors
  if currentPlayerPieces = 0 ∧ opponentPieces = 0 then true
  else if currentPlayerPieces = 0 ∧ opponentPieces > 0 then
    neighbors.any fun n =>
      (s.board.getTopInsect n).any (fun i => i.player = opponentPlayer)
  else
    let hasFriendlyNeighbor := neighbors.any fun n =>
      (s.board.getTopInsect n).any (fun i => i.player = currentPlayer)
    let hasOpponentNeighbor := neighbors.any fun n =>
      (s.board.getTopInsect n).any (fun i => i.player = opponentPlayer)
    hasFriendlyNeighbor && !hasOpponentNeighbor

/-- endTurn: advance the global turn, the mover's per-player counter, and
the current player. -/
def endTurn (s : GameState) : GameState :=
  { s with
    turn := s.turn + 1
    turnCount := fun p =>
      if p = s.currentPlayer then s.turnCount p + 1 else s.turnCount p
    currentPlayer := s.currentPlayer.other }

/-- canPassTurn: a voluntary pass is allowed once the queen is placed or
after two turns. -/
def canPassTurn (s : GameState) : Bool :=
  s.queenPlaced s.currentPlayer || s.turnCount s.currentPlayer ≥ 2

/-- checkWinCondition: scan the board in map order for a queen all six of
whose hex's neighbors are occupied; the first one found loses the game for
its owner. -/
def checkWinCondition (s : GameState) : GameState :=
  match s.board.findSome? (fun e =>
    match e.2.find? (fun i => i.insect = .queen) with
    | none => none
    | some queenInStack =>
      if (e.1.getNeighbors.filter
          (fun n => (s.board.getTopInsect n).isSome)).length = 6 then
        some queenInStack
      else none) with
  | some q => { s with gameOver := true, winner := some q.player.other }
  | none => s

/-- placeInsect: the placement action.  The source generates the insect
identifier from the wall clock; it is passed in here.  The boolean result
is the source's return value: true exactly when the placement was
committed. -/
def placeInsect (s : GameState) (hex : Hex) (insectType : InsectKind)
    (newId : Nat) : GameState × Bool :=
  if s.config.tournamentRules ∧ insectType = .queen ∧
      s.turnCount s.currentPlayer = 0 then (s, false)
  else if !s.queenPlaced s.currentPlayer ∧
      s.turnCount s.currentPlayer = 3 ∧ insectType ≠ .queen then (s, false)
  else if s.board.isHexOccupied hex then (s, false)
  else if s.board.length > 0 ∧ !canPlaceInsect s hex then (s, false)
  else
    let insect : Insect :=
      { player := s.currentPlayer, insect := insectType, id := newId }
    let s1 := { s with
      board := s.board.addInsectToHex hex insect
      hand := fun p k =>
        if p = s.currentPlayer ∧ k = insectType then s.hand p k - 1
        else s.hand p k
      queenPlaced := fun p =>
        if insectType = .queen ∧ p = s.currentPlayer then true
        else s.queenPlaced p }
    (endTurn (checkWinCondition s1), true)

/-- The movement types of getAvailableMovementTypes. -/
inductive MovementType where
  | normal (insectType : InsectKind)
  | pillbugThrow (throwerHex : Hex) (throwerId : Nat)
  | mosquitoThrow (throwerHex : Hex) (throwerId : Nat)
deriving DecidableEq

/-- getAvailableMovementTypes: the piece's own movement when it belongs to
the current player, plus a pillbug throw and a mosquito throw when a
suitable thrower exists. -/
def getAvailableMovementTypes (s : GameState) (insect : Insect)
    (fromHex : Hex) : List MovementType :=
  let types1 : List MovementType :=
    if insect.player = s.currentPlayer then [.normal insect.insect] else []
  let currentPlayerHasPillbugs := s.board.any fun e =>
    (e.2.getLast?).any fun top =>
      top.player = s.currentPlayer ∧ top.insect = .pillbug
  let types2 : List MovementType :=
    if currentPlayerHasPillbugs then
      match findPillbugThatCanThrow s.board fromHex insect.id
          s.currentPlayer with
      | some (pillbug, pillbugHex) => [.pillbugThrow pillbugHex pillbug.id]
      | none => []
    else []
  let currentPlayerHasMosquitoes := s.board.any fun e =>
    (e.2.getLast?).any fun top =>
      top.player = s.currentPlayer ∧ top.insect = .mosquito
  let types3 : List MovementType :=
    if currentPlayerHasMosquitoes then
      match findMosquitoThatCanThrow s.board fromHex insect.id
          s.currentPlayer with
      | some (mosquito, mosquitoHex) => [.mosquitoThrow mosquitoHex mosquito.id]
      | none => []
    else []
  types1 ++ types2 ++ types3

/-- canMosquitoClimbAsBeelle (sic): a mosquito may climb when a beetle is
adjacent. -/
def canMosquitoClimbAsBeelle (b : Board) (mosquitoHex : Hex)
    (mosquitoId : Nat) : Bool :=
  (getMosquitoAdjacentInsects b mosquitoHex mosquitoId).contains .beetle

/-- canInsectReach: dispatch to the kind-specific validator and report its
success flag. -/
def canInsectReach (b : Board) (insect : Insect) (fromHex toHex : Hex) :
    Bool :=
  match insect.insect with
  | .queen => (findQueenPath b fromHex toHex insect.id).success
  | .ant => (findAntPath b fromHex toHex insect.id).success
  | .beetle => (findBeetlePath b fromHex toHex insect.id).success
  | .hopper => (findHopperPath b fromHex toHex insect.id).success
  | .spider => (findSpiderPath b fromHex toHex insect.id).success
  | .mosquito => (findMosquitoPath b fromHex toHex insect.id).success
  | .ladybug => (findLadybugPath b fromHex toHex insect.id).success
  | .pillbug => (findPillbugPath b fromHex toHex insect.id).success

/-- canMoveNormally: an occupied target needs climbing ability, the target
must touch another insect (when more than one hex is occupied), and the
kind-specific validator must succeed. -/
def canMoveNormally (s : GameState) (insect : Insect) (fromHex toHex : Hex) :
    Bool :=
  let targetOccupied := s.board.isHexOccupied toHex
  if targetOccupied ∧
      ¬(insect.insect = .beetle ∨
        (insect.insect = .mosquito ∧
          canMosquitoClimbAsBeelle s.board fromHex insect.id)) then false
  else
    let touchesOtherInsect := toHex.getNeighbors.any fun n =>
      if n = fromHex then false else s.board.isHexOccupied n
    if !touchesOtherInsect ∧ s.board.length > 1 then false
    else canInsectReach s.board insect fromHex toHex

/-- canMoveUsingType: evaluate one movement type. -/
def canMoveUsingType (s : GameState) (movementType : MovementType)
    (insect : Insect) (fromHex toHex : Hex) : Bool :=
  match movementType with
  | .normal _ => canMoveNormally s insect fromHex toHex
  | .pillbugThrow throwerHex _ =>
    (findPillbugThrowPath s.board throwerHex fromHex toHex insect.id).success
  | .mosquitoThrow throwerHex _ =>
    (findPillbugThrowPath s.board throwerHex fromHex toHex insect.id).success

/-- isValidMove: some available movement type validates the move. -/
def isValidMove (s : GameState) (insect : Insect) (fromHex toHex : Hex) :
    Bool :=
  (getAvailableMovementTypes s insect fromHex).any fun movementType =>
    canMoveUsingType s movementType insect fromHex toHex

/-- moveInsect: the movement action.  The source returns undefined; the
boolean result here is true exactly on the committed path (the one that
splices the insect out, re-adds it at the target, and ends the turn). -/
def moveInsect (s : GameState) (insect : Insect) (targetHex : Hex) :
    GameState × Bool :=
  if !s.queenPlaced s.currentPlayer then (s, false)
  else if s.config.tournamentRules ∧ insect.insect = .queen ∧
      s.turnCount s.currentPlayer = 0 then (s, false)
  else
    match s.board.find? (fun e => e.2.any (fun bug => bug.id = insect.id)) with
    | none => (s, false)
    | some e =>
      let currentHex := e.1
      if !isValidMove s insect currentHex targetHex then (s, false)
      else if !isHiveConnectedWithout s.board currentHex then (s, false)
      else
        let s1 := { s with
          board := (s.board.spliceInsect currentHex insect.id).addInsectToHex
            targetHex insect }
        (endTurn (checkWinCondition s1), true)

/-! ## Connectivity: the mathematical notion of one hive

The specification speaks of the occupied hexes forming one connected
component under hex adjacency.  This is formalised independently of the
engine's flood fills, which are then proved sound against it. -/

/-- One adjacency step inside a fixed list of hexes. -/
def AdjStep (l : List Hex) (x y : Hex) : Prop :=
  y ∈ x.getNeighbors ∧ y ∈ l

/-- Reachability by adjacency steps inside a fixed list of hexes. -/
def ReachWithin (l : List Hex) : Hex → Hex → Prop :=
  Relation.ReflTransGen (AdjStep l)

/-- The list of hexes is nonempty and any two of its members are joined by
a path of adjacent hexes staying inside it: exactly one connected
component under hex adjacency. -/
def OneComponent (l : List Hex) : Prop :=
  l ≠ [] ∧ ∀ a ∈ l, ∀ b ∈ l, ReachWithin l a b

theorem ReachWithin.mono {l l' : List Hex} (hsub : ∀ x, x ∈ l → x ∈ l')
    {a b : Hex} (h : ReachWithin l a b) : ReachWithin l' a b := by
  induction h with
  | refl => exact Relation.ReflTransGen.refl
  | tail _ step ih =>
    exact Relation.ReflTransGen.tail ih ⟨step.1, hsub _ step.2⟩

theorem ReachWithin.mem_right {l : List Hex} {a b : Hex} (ha : a ∈ l)
    (h : ReachWithin l a b) : b ∈ l := by
  induction h with
  | refl => exact ha
  | tail _ step _ => exact step.2

theorem ReachWithin.symm {l : List Hex} {a b : Hex} (ha : a ∈ l)
    (h : ReachWithin l a b) : ReachWithin l b a := by
  induction h with
  | refl => exact Relation.ReflTransGen.refl
  | tail h1 step ih =>
    exact Relation.ReflTransGen.head
      ⟨Hex.getNeighbors_symm step.1, ReachWithin.mem_right ha h1⟩ ih

theorem ReachWithin.trans {l : List Hex} {a b c : Hex}
    (h1 : ReachWithin l a b) (h2 : ReachWithin l b c) :
    ReachWithin l a c :=
  Relation.ReflTransGen.trans h1 h2

/-- Extending a connected set by a hex adjacent to one of its members
keeps it connected (stated up to membership equivalence, so that it
applies to the concrete lists produced by the engine). -/
theorem OneComponent.insert {l l' : List Hex} {x n : Hex}
    (hl : OneComponent l) (hn : n ∈ l) (hadj : n ∈ x.getNeighbors)
    (hmem : ∀ y, y ∈ l' ↔ y ∈ l ∨ y = x) : OneComponent l' := by
  have hx : x ∈ l' := (hmem x).2 (Or.inr rfl)
  have hsub : ∀ y, y ∈ l → y ∈ l' := fun y hy => (hmem y).2 (Or.inl hy)
  have hton : ∀ a ∈ l', ReachWithin l' a x := by
    intro a ha
    rcases (hmem a).1 ha with ha' | rfl
    · exact Relation.ReflTransGen.tail
        ((hl.2 a ha' n hn).mono hsub) ⟨Hex.getNeighbors_symm hadj, hx⟩
    · exact Relation.ReflTransGen.refl
  refine ⟨by intro h; rw [h] at hx; exact (List.not_mem_nil x) hx, ?_⟩
  intro a ha b hb
  exact (hton a ha).trans ((hton b hb).symm hb)

theorem singleton_oneComponent {l : List Hex} {x : Hex}
    (hmem : ∀ y, y ∈ l ↔ y = x) : OneComponent l := by
  have hx : x ∈ l := (hmem x).2 rfl
  refine ⟨by intro h; rw [h] at hx; exact (List.not_mem_nil x) hx, ?_⟩
  intro a ha b hb
  rw [(hmem a).1 ha, (hmem b).1 hb]
  exact Relation.ReflTransGen.refl

/-- Invariants of the flood-fill loop: at every stopping point the visited
list has no duplicates, lies inside the allowed list, contains everything
already visited, and consists of hexes reachable from the start hex inside
the allowed list.  These hold regardless of whether the fuel sufficed. -/
theorem floodAux_inv (ok : Hex → Bool) (allowed : List Hex) (start : Hex)
    (hok : ∀ n, ok n = true → n ∈ allowed) :
    ∀ (fuel : Nat) (queue visited : List Hex),
      visited.Nodup →
      (∀ x ∈ queue, x ∈ visited) →
      (∀ x ∈ visited, x ∈ allowed) →
      (∀ x ∈ visited, ReachWithin allowed start x) →
      (floodAux ok fuel queue visited).Nodup ∧
      (∀ x ∈ visited, x ∈ floodAux ok fuel queue visited) ∧
      (∀ x ∈ floodAux ok fuel queue visited,
        x ∈ allowed ∧ ReachWithin allowed start x) := by
  intro fuel
  induction fuel with
  | zero =>
    intro queue visited h1 _ h3 h4
    exact ⟨h1, fun x hx => by simpa [floodAux] using hx,
      fun x hx => ⟨h3 x (by simpa [floodAux] using hx),
        h4 x (by simpa [floodAux] using hx)⟩⟩
  | succ n ih =>
    intro queue visited h1 h2 h3 h4
    match queue with
    | [] =>
      exact ⟨h1, fun x hx => by simpa [floodAux] using hx,
        fun x hx => ⟨h3 x (by simpa [floodAux] using hx),
          h4 x (by simpa [floodAux] using hx)⟩⟩
    | cur :: rest =>
      have hcur : cur ∈ visited := h2 cur (by simp)
      simp only [floodAux]
      have hnsmem : ∀ x ∈ cur.getNeighbors.filter
          (fun n => ok n && !visited.contains n),
          x ∈ cur.getNeighbors ∧ ok x = true ∧ x ∉ visited := by
        intro x hx
        have := List.of_mem_filter hx
        simp only [Bool.and_eq_true, Bool.not_eq_true'] at this
        exact ⟨List.mem_of_mem_filter hx, this.1, by
          simpa using this.2⟩
      have hmain := ih (rest ++ cur.getNeighbors.filter
          (fun n => ok n && !visited.contains n))
        (visited ++ cur.getNeighbors.filter
          (fun n => ok n && !visited.contains n)) ?_ ?_ ?_ ?_
      case _ =>
        exact ⟨hmain.1,
          fun x hx => hmain.2.1 x (List.mem_append.2 (Or.inl hx)),
          hmain.2.2⟩
      · refine List.Nodup.append h1
          (List.Nodup.filter _ (Hex.getNeighbors_nodup cur)) ?_
        intro x hxv hxns
        exact (hnsmem x hxns).2.2 hxv
      · intro x hx
        rcases List.mem_append.1 hx with hx' | hx'
        · exact List.mem_append.2 (Or.inl (h2 x (by simp [hx'])))
        · exact List.mem_append.2 (Or.inr hx')
      · intro x hx
        rcases List.mem_append.1 hx with hx' | hx'
        · exact h3 x hx'
        · exact hok x (hnsmem x hx').2.1
      · intro x hx
        rcases List.mem_append.1 hx with hx' | hx'
        · exact h4 x hx'
        · exact Relation.ReflTransGen.tail (h4 cur hcur)
            ⟨(hnsmem x hx').1, hok x (hnsmem x hx').2.1⟩

/-- A duplicate-free list contained in another duplicate-free list of the
same length contains it back. -/
theorem mem_of_nodup_subset_length_eq {v r : List Hex} (hv : v.Nodup)
    (hr : r.Nodup) (hsub : ∀ x ∈ v, x ∈ r) (hlen : v.length = r.length) :
    ∀ x ∈ r, x ∈ v := by
  have hfin : v.toFinset = r.toFinset := by
    apply Finset.eq_of_subset_of_card_le
    · intro x hx
      exact List.mem_toFinset.2 (hsub x (List.mem_toFinset.1 hx))
    · rw [List.toFinset_card_of_nodup hv, List.toFinset_card_of_nodup hr,
        hlen]
  intro x hx
  exact List.mem_toFinset.1 (hfin ▸ List.mem_toFinset.2 hx)

/-- A filterMap that can only keep an element's key produces a sublist of
the keys. -/
theorem filterMap_key_sublist (f : Hex × List Insect → Option Hex)
    (hf : ∀ e x, f e = some x → x = e.1) (b : Board) :
    (b.filterMap f).Sublist (Board.keys b) := by
  induction b with
  | nil => simp
  | cons e t ih =>
    rw [List.filterMap_cons]
    cases hfe : f e with
    | none => exact ih.cons e.1
    | some x =>
      rw [hf e x hfe]
      exact ih.cons₂ e.1

theorem remainingAfter_sublist_keys (b : Board) (ex : Hex) :
    (remainingAfter b ex).Sublist (Board.keys b) := by
  apply filterMap_key_sublist
  intro e x hfe
  by_cases h1 : e.1 = ex
  · by_cases h2 : e.2.length > 1
    · rw [if_pos h1, if_pos h2] at hfe
      exact (Option.some.inj hfe).symm
    · rw [if_pos h1, if_neg h2] at hfe
      exact absurd hfe (by simp)
  · rw [if_neg h1] at hfe
    exact (Option.some.inj hfe).symm

theorem occupiedExcept_sublist_keys (b : Board) (rm : Hex) :
    (occupiedExcept b rm).Sublist (Board.keys b) := by
  apply filterMap_key_sublist
  intro e x hfe
  by_cases h1 : e.1 = rm
  · rw [if_pos h1] at hfe
    exact absurd hfe (by simp)
  · by_cases h2 : e.2.isEmpty = true
    · rw [if_neg h1, if_pos h2] at hfe
      exact absurd hfe (by simp)
    · rw [if_neg h1, if_neg h2] at hfe
      exact (Option.some.inj hfe).symm

theorem mem_remainingAfter_of_ne {b : Board} {ex x : Hex}
    (hx : x ∈ Board.keys b) (hne : x ≠ ex) : x ∈ remainingAfter b ex := by
  rcases List.mem_map.1 hx with ⟨e, he, rfl⟩
  exact List.mem_filterMap.2 ⟨e, he, by simp [hne]⟩

theorem mem_remainingAfter_of_long {b : Board} {ex : Hex}
    {e : Hex × List Insect} (he : e ∈ b) (hk : e.1 = ex)
    (hlen : e.2.length > 1) : ex ∈ remainingAfter b ex := by
  exact List.mem_filterMap.2 ⟨e, he, by simp [hk, hlen]⟩

/-- Soundness of the connectivity check behind every committed move: when
isHiveConnectedWithout reports true for a well-formed board, the remaining
occupied hexes are empty or one connected component, whatever the
flood-fill fuel did. -/
theorem isHiveConnectedWithout_sound {b : Board} {ex : Hex}
    (hWF : Board.WF b) (h : isHiveConnectedWithout b ex = true) :
    remainingAfter b ex = [] ∨ OneComponent (remainingAfter b ex) := by
  have hnd : (remainingAfter b ex).Nodup :=
    (remainingAfter_sublist_keys b ex).nodup hWF.keys_nodup
  unfold isHiveConnectedWithout at h
  by_cases hlen : (remainingAfter b ex).length ≤ 1
  · match hrem : remainingAfter b ex with
    | [] => exact Or.inl rfl
    | [x] =>
      exact Or.inr (singleton_oneComponent (x := x) (fun y => by simp))
    | x :: y :: t => rw [hrem] at hlen; simp at hlen
  · simp only [hlen, if_false] at h
    match hrem : remainingAfter b ex with
    | [] => exact Or.inl rfl
    | start :: t =>
      rw [hrem] at h hnd
      simp only at h
      have hflood := floodAux_inv (fun n => (start :: t).contains n)
        (start :: t) start (fun n hn => by simpa using hn)
        ((start :: t).length + 1) [start] [start]
        (by simp) (by simp) (by simp)
        (by intro x hx; simp only [List.mem_singleton] at hx; subst hx
            exact Relation.ReflTransGen.refl)
      set vf := floodAux (fun n => (start :: t).contains n)
        ((start :: t).length + 1) [start] [start] with hvf
      have h' : vf.length = (start :: t).length := by
        by_contra hc
        simp [hc] at h
        exact hc (by simpa using h)
      have hall : ∀ x ∈ start :: t, x ∈ vf :=
        mem_of_nodup_subset_length_eq hflood.1 hnd
          (fun x hx => (hflood.2.2 x hx).1) h'
      refine Or.inr ⟨by simp, ?_⟩
      intro a ha b' hb
      have hra : ReachWithin (start :: t) start a :=
        (hflood.2.2 a (hall a ha)).2
      have hrb : ReachWithin (start :: t) start b' :=
        (hflood.2.2 b' (hall b' hb)).2
      exact (hra.symm (by simp)).trans hrb

/-- Soundness of the split check behind every pillbug throw: when
wouldSplitHive reports false for a well-formed board with something to
remove, the other occupied hexes are empty or one connected component. -/
theorem wouldSplitHive_false_sound {b : Board} {rm : Hex}
    (hWF : Board.WF b) (hne : (b.getInsectStack rm).isEmpty = false)
    (h : wouldSplitHive b rm = false) :
    occupiedExcept b rm = [] ∨ OneComponent (occupiedExcept b rm) := by
  have hnd : (occupiedExcept b rm).Nodup :=
    (occupiedExcept_sublist_keys b rm).nodup hWF.keys_nodup
  unfold wouldSplitHive at h
  rw [hne] at h
  simp only [Bool.false_eq_true, if_false] at h
  match hrem : occupiedExcept b rm with
  | [] => exact Or.inl rfl
  | start :: t =>
    rw [hrem] at h hnd
    simp only [ne_eq, Bool.not_eq_false', decide_eq_true_eq] at h
    have hflood := floodAux_inv
      (fun n => n ≠ rm && (start :: t).contains n)
      (start :: t) start
      (fun n hn => by
        simp only [Bool.and_eq_true, decide_eq_true_eq] at hn
        simpa using hn.2)
      ((start :: t).length + 1) [start] [start]
      (by simp) (by simp) (by simp)
      (by intro x hx; simp only [List.mem_singleton] at hx; subst hx
          exact Relation.ReflTransGen.refl)
    set vf := floodAux (fun n => n ≠ rm && (start :: t).contains n)
      ((start :: t).length + 1) [start] [start] with hvf
    have h' : vf.length = (start :: t).length := by
      by_contra hc
      simp [hc] at h
      exact hc (by simpa using h)
    have hall : ∀ x ∈ start :: t, x ∈ vf :=
      mem_of_nodup_subset_length_eq hflood.1 hnd
        (fun x hx => (hflood.2.2 x hx).1) h'
    refine Or.inr ⟨by simp, ?_⟩
    intro a ha b' hb
    have hra : ReachWithin (start :: t) start a :=
      (hflood.2.2 a (hall a ha)).2
    have hrb : ReachWithin (start :: t) start b' :=
      (hflood.2.2 b' (hall b' hb)).2
    exact (hra.symm (by simp)).trans hrb

/-! ## Helper lemmas for the placement rules -/

theorem optionAny_eq_true {o : Option Insect} {p : Insect → Bool} :
    o.any p = true ↔ ∃ i, o = some i ∧ p i = true := by
  cases o <;> simp [Option.any]

theorem Player.other_ne (p : Player) : p.other ≠ p := by
  cases p <;> simp [Player.other]

theorem Player.eq_other_of_ne {x p : Player} (h : x ≠ p) : x = p.other := by
  cases x <;> cases p <;> simp_all [Player.other]

/-- On a well-formed board every occupied hex is counted for exactly one
player. -/
theorem topPieceCount_add {b : Board} (hWF : Board.WF b) (p : Player) :
    topPieceCount b p + topPieceCount b p.other = b.length := by
  unfold topPieceCount
  rw [show b.length = (Board.keys b).length by simp [Board.keys]]
  apply countP_add_countP_compl
  intro k hk
  rcases List.mem_map.1 hk with ⟨e, he, rfl⟩
  rw [Board.getTopInsect, Board.getInsectStack_of_mem hWF he]
  rcases Option.isSome_iff_exists.1 (List.getLast?_isSome.2
      (hWF.stacks_ne_nil e he)) with ⟨i, hi⟩
  rw [hi]
  cases hp : i.player <;> cases p <;> simp [Option.any, Player.other, hp]

/-! ## Concrete states used by witnesses and counterexamples -/

/-- The standard configuration: all expansions on, tournament rules off. -/
def cfgStd : Config :=
  { expansionMosquito := true, expansionLadybug := true,
    expansionPillbug := true, tournamentRules := false }

/-- A player-one ant covered by a player-two beetle, next to a free
player-one ant. -/
def sCovered : GameState :=
  { initialState cfgStd with
    board := [(⟨0, 0⟩, [⟨.one, .ant, 1⟩, ⟨.two, .beetle, 2⟩]),
              (⟨2, 0⟩, [⟨.one, .ant, 3⟩])] }

/-- The same position without the covering beetle. -/
def sUncovered : GameState :=
  { initialState cfgStd with
    board := [(⟨0, 0⟩, [⟨.one, .ant, 1⟩]),
              (⟨2, 0⟩, [⟨.one, .ant, 3⟩])] }

/-- A one-piece board used to exercise rejected actions. -/
def sOneQueen : GameState :=
  { initialState cfgStd with
    board := [(⟨0, 0⟩, [⟨.one, .queen, 1⟩])]
    queenPlaced := fun _ => true }

/-! ## Claim theorems -/

/-- Claim C4: canPlaceInsect accepts the first piece of the game (empty
board) on any hex; accepts the placing player's first piece on a non-empty
board exactly when some neighboring stack's top piece belongs to the
opponent; and once the placing player has a top piece on the board it
accepts exactly the hexes with a friendly top-piece neighbor and no
opponent top-piece neighbor — in particular, with no friendly neighbor the
placement is rejected even when adjacent to an opponent piece. -/
theorem claim_C4 (s : GameState) (hex : Hex) (hWF : Board.WF s.board) :
    (s.board = [] → canPlaceInsect s hex = true) ∧
    (s.board ≠ [] → topPieceCount s.board s.currentPlayer = 0 →
      (canPlaceInsect s hex = true ↔
        ∃ n ∈ hex.getNeighbors, ∃ i,
          Board.getTopInsect s.board n = some i ∧
          i.player = s.currentPlayer.other)) ∧
    (0 < topPieceCount s.board s.currentPlayer →
      (canPlaceInsect s hex = true ↔
        ((∃ n ∈ hex.getNeighbors, ∃ i,
            Board.getTopInsect s.board n = some i ∧
            i.player = s.currentPlayer) ∧
         ¬∃ n ∈ hex.getNeighbors, ∃ i,
            Board.getTopInsect s.board n = some i ∧
            i.player = s.currentPlayer.other))) ∧
    (0 < topPieceCount s.board s.currentPlayer →
      (¬∃ n ∈ hex.getNeighbors, ∃ i,
          Board.getTopInsect s.board n = some i ∧
          i.player = s.currentPlayer) →
      canPlaceInsect s hex = false) := by
  have hthird : 0 < topPieceCount s.board s.currentPlayer →
      (canPlaceInsect s hex = true ↔
        ((∃ n ∈ hex.getNeighbors, ∃ i,
            Board.getTopInsect s.board n = some i ∧
            i.player = s.currentPlayer) ∧
         ¬∃ n ∈ hex.getNeighbors, ∃ i,
            Board.getTopInsect s.board n = some i ∧
            i.player = s.currentPlayer.other)) := by
    intro hpos
    have hA : ¬(topPieceCount s.board s.currentPlayer = 0 ∧
        topPieceCount s.board s.currentPlayer.other = 0) := by
      intro hc; omega
    have hB : ¬(topPieceCount s.board s.currentPlayer = 0 ∧
        topPieceCount s.board s.currentPlayer.other > 0) := by
      intro hc; omega
    simp only [canPlaceInsect]
    rw [if_neg hA, if_neg hB]
    simp [List.any_eq_true, optionAny_eq_true]
  refine ⟨?_, ?_, hthird, ?_⟩
  · intro hempty
    have h1 : topPieceCount s.board s.currentPlayer = 0 := by
      simp [topPieceCount, hempty, Board.keys]
    have h2 : topPieceCount s.board s.currentPlayer.other = 0 := by
      simp [topPieceCount, hempty, Board.keys]
    simp only [canPlaceInsect]
    rw [if_pos ⟨h1, h2⟩]
  · intro hne h0
    have hsum := topPieceCount_add hWF s.currentPlayer
    have hlen : s.board.length ≠ 0 := by
      intro hc; exact hne (List.length_eq_zero.1 hc)
    have hopp : topPieceCount s.board s.currentPlayer.other > 0 := by omega
    have hA : ¬(topPieceCount s.board s.currentPlayer = 0 ∧
        topPieceCount s.board s.currentPlayer.other = 0) := by
      intro hc; omega
    simp only [canPlaceInsect]
    rw [if_neg hA, if_pos ⟨h0, hopp⟩]
    simp [List.any_eq_true, optionAny_eq_true]
  · intro hpos hnof
    cases hc : canPlaceInsect s hex with
    | true => exact absurd ((hthird hpos).1 hc).1 hnof
    | false => rfl

theorem claim_C4_witness :
    Board.WF (initialState cfgStd).board ∧
    canPlaceInsect (initialState cfgStd) ⟨0, 0⟩ = true :=
  ⟨by decide, (claim_C4 (initialState cfgStd) ⟨0, 0⟩ (by decide)).1 rfl⟩

/-- Claim C10: placement legality is decided solely by the top piece of
each stack — canPlaceInsect depends only on the occupied-hex list and the
top piece of every hex — and concretely, a player-one piece covered by a
player-two beetle makes an adjacent placement by player one illegal (it
counts as an opponent piece) while the same position without the beetle is
legal, and the covered piece no longer counts toward its owner's piece
count. -/
theorem claim_C10 :
    (∀ (s1 s2 : GameState) (hex : Hex),
      Board.keys s1.board = Board.keys s2.board →
      (∀ h, Board.getTopInsect s1.board h = Board.getTopInsect s2.board h) →
      s1.currentPlayer = s2.currentPlayer →
      canPlaceInsect s1 hex = canPlaceInsect s2 hex) ∧
    canPlaceInsect sCovered ⟨1, 0⟩ = false ∧
    canPlaceInsect sUncovered ⟨1, 0⟩ = true ∧
    topPieceCount sCovered.board .one = 1 ∧
    topPieceCount sCovered.board .two = 1 := by
  refine ⟨?_, by decide, by decide, by decide, by decide⟩
  intro s1 s2 hex hkeys htops hplayer
  have hcount : ∀ p, topPieceCount s1.board p = topPieceCount s2.board p := by
    intro p
    unfold topPieceCount
    rw [hkeys]
    apply List.countP_congr
    intro k _
    rw [htops k]
  simp only [canPlaceInsect, hplayer, hcount, htops]

theorem claim_C10_witness :
    Board.keys sCovered.board = Board.keys sCovered.board ∧
    canPlaceInsect sCovered ⟨1, 0⟩ = canPlaceInsect sCovered ⟨1, 0⟩ :=
  ⟨rfl, claim_C10.1 sCovered sCovered ⟨1, 0⟩ rfl (fun _ => rfl) rfl⟩

/-- Claim C3: every rejected action leaves the state untouched — when
placeInsect returns false or moveInsect returns without committing, the
board, both hands, the queen-placed flags, the turn counters and the
current player are unchanged; the engine mutates only after the whole
legality chain has passed. -/
theorem claim_C3 (s : GameState) :
    (∀ (hex : Hex) (kind : InsectKind) (newId : Nat) (s' : GameState),
      placeInsect s hex kind newId = (s', false) →
      s'.board = s.board ∧ s'.hand = s.hand ∧
      s'.queenPlaced = s.queenPlaced ∧ s'.turnCount = s.turnCount ∧
      s'.turn = s.turn ∧ s'.currentPlayer = s.currentPlayer) ∧
    (∀ (insect : Insect) (target : Hex) (s' : GameState),
      moveInsect s insect target = (s', false) →
      s'.board = s.board ∧ s'.hand = s.hand ∧
      s'.queenPlaced = s.queenPlaced ∧ s'.turnCount = s.turnCount ∧
      s'.turn = s.turn ∧ s'.currentPlayer = s.currentPlayer) := by
  constructor
  · intro hex kind newId s' h
    unfold placeInsect at h
    split at h
    · obtain ⟨rfl, -⟩ := Prod.mk.injEq .. ▸ h
      exact ⟨rfl, rfl, rfl, rfl, rfl, rfl⟩
    · split at h
      · obtain ⟨rfl, -⟩ := Prod.mk.injEq .. ▸ h
        exact ⟨rfl, rfl, rfl, rfl, rfl, rfl⟩
      · split at h
        · obtain ⟨rfl, -⟩ := Prod.mk.injEq .. ▸ h
          exact ⟨rfl, rfl, rfl, rfl, rfl, rfl⟩
        · split at h
          · obtain ⟨rfl, -⟩ := Prod.mk.injEq .. ▸ h
            exact ⟨rfl, rfl, rfl, rfl, rfl, rfl⟩
          · simp at h
  · intro insect target s' h
    unfold moveInsect at h
    dsimp only at h
    split at h
    · obtain ⟨rfl, -⟩ := Prod.mk.injEq .. ▸ h
      exact ⟨rfl, rfl, rfl, rfl, rfl, rfl⟩
    · split at h
      · obtain ⟨rfl, -⟩ := Prod.mk.injEq .. ▸ h
        exact ⟨rfl, rfl, rfl, rfl, rfl, rfl⟩
      · split at h
        · obtain ⟨rfl, -⟩ := Prod.mk.injEq .. ▸ h
          exact ⟨rfl, rfl, rfl, rfl, rfl, rfl⟩
        · split at h
          · obtain ⟨rfl, -⟩ := Prod.mk.injEq .. ▸ h
            exact ⟨rfl, rfl, rfl, rfl, rfl, rfl⟩
          · split at h
            · obtain ⟨rfl, -⟩ := Prod.mk.injEq .. ▸ h
              exact ⟨rfl, rfl, rfl, rfl, rfl, rfl⟩
            · simp at h

theorem claim_C3_witness :
    ((placeInsect sOneQueen ⟨0, 0⟩ .ant 5).1.board = sOneQueen.board ∧
      (placeInsect sOneQueen ⟨0, 0⟩ .ant 5).1.turn = sOneQueen.turn) ∧
    (moveInsect sOneQueen ⟨.one, .ant, 9⟩ ⟨5, 5⟩).1.turnCount =
      sOneQueen.turnCount := by
  have h1 := (claim_C3 sOneQueen).1 ⟨0, 0⟩ .ant 5
    (placeInsect sOneQueen ⟨0, 0⟩ .ant 5).1 rfl
  have h2 := (claim_C3 sOneQueen).2 ⟨.one, .ant, 9⟩ ⟨5, 5⟩
    (moveInsect sOneQueen ⟨.one, .ant, 9⟩ ⟨5, 5⟩).1 rfl
  exact ⟨⟨h1.1, h1.2.2.2.2.1⟩, h2.2.2.2.1⟩

/-- The moving piece's identifier occurs only at its own hex.  This holds
in every real engine call: moveInsect locates the origin hex by scanning
the board for the identifier, and identifiers are created unique. -/
def IdOnlyAt (b : Board) (movingId : Nat) (home : Hex) : Prop :=
  ∀ e ∈ b, (∃ bug ∈ e.2, bug.id = movingId) → e.1 = home

instance (b : Board) (movingId : Nat) (home : Hex) :
    Decidable (IdOnlyAt b movingId home) := by
  unfold IdOnlyAt; infer_instance

/-- A board used by the throw witness: a pillbug beside a lone ant. -/
def bThrow : Board :=
  [(⟨0, 0⟩, [⟨.one, .pillbug, 1⟩]), (⟨1, 0⟩, [⟨.one, .ant, 2⟩])]

/-- Claim C8: every pillbug (or mosquito-as-pillbug) throw that is judged
legal — canPillbugThrowPiece accepts the piece and the destination is one
of getPillbugThrowDestinations; both throw flavors go through exactly
these two functions — has a thrown piece standing alone on its hex,
removing it leaves the other occupied hexes connected (or none), and the
destination is an unoccupied neighbor of the thrower, different from the
thrown piece's hex, with an occupied neighbor other than the vacated hex
(so it touches the hive once occupied). -/
theorem claim_C8 (b : Board) (thrower pieceHex toHex : Hex) (pieceId : Nat)
    (hWF : Board.WF b) (hid : IdOnlyAt b pieceId pieceHex)
    (hcan : canPillbugThrowPiece b thrower pieceHex pieceId = true)
    (hdest : toHex ∈ getPillbugThrowDestinations b thrower pieceHex pieceId) :
    (Board.getInsectStack b pieceHex).length = 1 ∧
    (occupiedExcept b pieceHex = [] ∨
      OneComponent (occupiedExcept b pieceHex)) ∧
    Board.isHexOccupied b toHex = false ∧
    toHex ∈ thrower.getNeighbors ∧
    toHex ≠ pieceHex ∧
    (∃ n ∈ toHex.getNeighbors, n ≠ pieceHex ∧
      Board.isHexOccupied b n = true) := by
  have hd : ¬thrower.distance pieceHex ≠ 1 := by
    by_contra hc
    unfold canPillbugThrowPiece at hcan
    rw [if_pos hc] at hcan
    exact Bool.false_ne_true hcan
  unfold canPillbugThrowPiece at hcan
  rw [if_neg hd] at hcan
  dsimp only at hcan
  by_cases h1 : (Board.getInsectStack b pieceHex).isEmpty = true
  · rw [if_pos h1] at hcan
    exact absurd hcan Bool.false_ne_true
  rw [if_neg h1] at hcan
  by_cases h2 : (Board.getInsectStack b pieceHex).length > 1
  · rw [if_pos h2] at hcan
    exact absurd hcan Bool.false_ne_true
  rw [if_neg h2] at hcan
  have hlen : (Board.getInsectStack b pieceHex).length = 1 := by
    have h0 : (Board.getInsectStack b pieceHex).length ≠ 0 := by
      intro hc
      exact h1 (by simpa [List.isEmpty_iff, List.length_eq_zero] using hc)
    omega
  have hsplit : wouldSplitHive b pieceHex = false := by
    cases hw : wouldSplitHive b pieceHex
    · rfl
    · rw [hw] at hcan; exact absurd hcan (by simp)
  have hconn := wouldSplitHive_false_sound hWF
    (Bool.not_eq_true _ ▸ h1) hsplit
  rcases List.mem_filter.1 hdest with ⟨hmem, hpred⟩
  have hne : toHex ≠ pieceHex := by
    intro hc
    rw [if_pos hc] at hpred
    exact Bool.false_ne_true hpred
  rw [if_neg hne] at hpred
  simp only [Bool.and_eq_true, Bool.or_eq_true] at hpred
  obtain ⟨hempty, htouch⟩ := hpred
  have hocc : Board.isHexOccupied b toHex = false := by
    rcases hempty with he | hm
    · simp [Board.isHexOccupied, he]
    · exfalso
      rcases hstack : Board.getInsectStack b toHex with _ | ⟨i, rest⟩
      · rw [hstack] at hm; simp [onlyMovingInsect] at hm
      · rw [hstack] at hm
        rcases rest with _ | _
        · simp only [onlyMovingInsect, decide_eq_true_eq] at hm
          have hkey : toHex ∈ Board.keys b := by
            by_contra hk
            rw [Board.getInsectStack_eq_nil_of_not_mem hk] at hstack
            cases hstack
          rcases List.mem_map.1 hkey with ⟨e, heb, hk⟩
          have hstack' : e.2 = [i] := by
            rw [← hk] at hstack
            rw [← Board.getInsectStack_of_mem hWF heb, hstack]
          exact hne (hk ▸ hid e heb ⟨i, by simp [hstack'], hm⟩)
        · simp [onlyMovingInsect] at hm
  refine ⟨hlen, hconn, hocc, hmem, hne, ?_⟩
  rcases List.any_eq_true.1 htouch with ⟨n, hn, hcond⟩
  refine ⟨n, hn, ?_, ?_⟩
  · intro hc
    rw [if_pos (by rw [hc])] at hcond
    exact Bool.false_ne_true hcond
  · have hx : ¬(some pieceHex = some n) := by
      intro hc
      rw [if_pos hc] at hcond
      exact Bool.false_ne_true hcond
    rw [if_neg hx] at hcond
    dsimp only at hcond
    by_cases hie : (Board.getInsectStack b n).isEmpty = true
    · rw [if_pos hie] at hcond
      exact absurd hcond Bool.false_ne_true
    · simpa [Board.isHexOccupied] using hie

theorem claim_C8_witness :
    IdOnlyAt bThrow 2 ⟨1, 0⟩ ∧
    canPillbugThrowPiece bThrow ⟨0, 0⟩ ⟨1, 0⟩ 2 = true ∧
    (⟨0, 1⟩ : Hex) ∈ getPillbugThrowDestinations bThrow ⟨0, 0⟩ ⟨1, 0⟩ 2 ∧
    ((Board.getInsectStack bThrow ⟨1, 0⟩).length = 1 ∧
      (occupiedExcept bThrow ⟨1, 0⟩ = [] ∨
        OneComponent (occupiedExcept bThrow ⟨1, 0⟩)) ∧
      Board.isHexOccupied bThrow ⟨0, 1⟩ = false ∧
      (⟨0, 1⟩ : Hex) ∈ Hex.getNeighbors ⟨0, 0⟩ ∧
      (⟨0, 1⟩ : Hex) ≠ ⟨1, 0⟩ ∧
      (∃ n ∈ Hex.getNeighbors ⟨0, 1⟩, n ≠ ⟨1, 0⟩ ∧
        Board.isHexOccupied bThrow n = true)) :=
  ⟨by decide, by decide, by decide,
    claim_C8 bThrow ⟨0, 0⟩ ⟨1, 0⟩ ⟨0, 1⟩ 2 (by decide) (by decide)
      (by decide) (by decide)⟩

/-! ## Helper lemmas for the grasshopper claim -/

/-- A nonempty stack comes from an actual board entry. -/
theorem Board.exists_entry_of_stack_ne_nil {b : Board} {h : Hex}
    (hne : Board.getInsectStack b h ≠ []) :
    ∃ e ∈ b, e.1 = h ∧ Board.getInsectStack b h = e.2 := by
  unfold Board.getInsectStack at *
  cases hfind : b.find? (fun e => e.1 = h) with
  | none => rw [hfind] at hne; simp at hne
  | some e =>
    refine ⟨e, List.mem_of_find?_eq_some hfind, ?_, ?_⟩
    · simpa using List.find?_some hfind
    · simp [hfind]

/-- Away from the moving piece's own hex, the grasshopper's emptiness test
is plain non-occupancy. -/
theorem hopperEmptyAt_eq {b : Board} {movingId : Nat} {home h : Hex}
    (hid : IdOnlyAt b movingId home) (hne : h ≠ home) :
    hopperEmptyAt b movingId h = !(Board.isHexOccupied b h) := by
  unfold hopperEmptyAt
  suffices hm : onlyMovingInsect (Board.getInsectStack b h) movingId
      = false by
    rw [hm, Bool.or_false]
  cases hstack : Board.getInsectStack b h with
  | nil => simp [onlyMovingInsect]
  | cons i rest =>
    cases rest with
    | cons j t => simp [onlyMovingInsect]
    | nil =>
      simp only [onlyMovingInsect, decide_eq_false_iff_not]
      intro hidm
      rcases Board.exists_entry_of_stack_ne_nil
        (by rw [hstack]; simp) with ⟨e, heb, hk, hst⟩
      refine hne (hk ▸ hid e heb ⟨i, ?_, hidm⟩)
      rw [← hst, hstack]
      simp

/-- The i-th hex along a direction ray. -/
def hexRay (fromHex d : Hex) (i : Nat) : Hex :=
  ⟨fromHex.q + (i : Int) * d.q, fromHex.r + (i : Int) * d.r⟩

theorem hexRay_succ (f d : Hex) (i : Nat) :
    hexRay f d (i + 1) = (hexRay f d i).add d := by
  simp only [hexRay, Hex.add, Hex.ext_iff']
  push_cast
  constructor <;> ring

theorem hexRay_one (f d : Hex) : f.add d = hexRay f d 1 := by
  simp only [hexRay, Hex.add, Hex.ext_iff']
  push_cast
  constructor <;> ring

theorem hexRay_ne {d : Hex} (hd : d ∈ hexDirections) (f : Hex) {i : Nat}
    (hi : 1 ≤ i) : hexRay f d i ≠ f := by
  simp only [hexDirections, List.mem_cons, List.not_mem_nil, or_false]
    at hd
  rcases hd with rfl | rfl | rfl | rfl | rfl | rfl <;>
    · intro hcontra
      rw [Hex.ext_iff'] at hcontra
      simp only [hexRay] at hcontra
      omega

/-- What a successful landing search means: the hexes strictly between the
origin and the landing hex form a nonempty occupied run (in the piece's
effective-occupancy sense), and the landing hex is the first
effectively-empty hex beyond it. -/
theorem findHopperLandingAux_spec (b : Board) (movingId : Nat) (d f : Hex) :
    ∀ (fuel count : Nat) (L : Hex),
      findHopperLandingAux b movingId d fuel (hexRay f d (count + 1))
        count = some L →
      ∃ k, 1 ≤ k ∧ count ≤ k ∧
        (∀ i, count + 1 ≤ i → i ≤ k →
          hopperEmptyAt b movingId (hexRay f d i) = false) ∧
        hopperEmptyAt b movingId (hexRay f d (k + 1)) = true ∧
        L = hexRay f d (k + 1) := by
  intro fuel
  induction fuel with
  | zero => intro count L h; cases h
  | succ n ih =>
    intro count L h
    unfold findHopperLandingAux at h
    by_cases hemp : hopperEmptyAt b movingId (hexRay f d (count + 1)) = true
    · rw [if_pos hemp] at h
      by_cases hc0 : count = 0
      · rw [if_pos hc0] at h; cases h
      · rw [if_neg hc0] at h
        refine ⟨count, by omega, le_refl count,
          fun i hi1 hi2 => absurd (hi1.trans hi2) (by omega), hemp,
          (Option.some.inj h).symm⟩
    · rw [if_neg hemp] at h
      by_cases h50 : count + 1 > 50
      · rw [if_pos h50] at h; cases h
      · rw [if_neg h50, ← hexRay_succ] at h
        rcases ih (count + 1) L h with ⟨k, hk1, hk2, hint, hkE, hL⟩
        refine ⟨k, hk1, by omega, ?_, hkE, hL⟩
        intro i hi1 hi2
        rcases Nat.eq_or_lt_of_le hi1 with rfl | hgt
        · exact Bool.not_eq_true _ ▸ hemp
        · exact hint i (by omega) hi2

/-- The board for the grasshopper witness: one jumped-over ant. -/
def bHop : Board := [(⟨1, 0⟩, [⟨.one, .ant, 5⟩])]

/-- Claim C9: when findHopperPath reports success there is a direction in
which the immediate neighbor of the origin is occupied (at least one piece
was jumped over) and the target is the first unoccupied hex strictly
beyond the contiguous occupied run in that direction.  The hypothesis that
the moving piece's identifier lives only at the origin holds in every real
call, since moveInsect locates the origin by that identifier. -/
theorem claim_C9 (b : Board) (fromHex toHex : Hex) (movingId : Nat)
    (hid : IdOnlyAt b movingId fromHex)
    (hsucc : (findHopperPath b fromHex toHex movingId).success = true) :
    ∃ d ∈ hexDirections,
      Board.isHexOccupied b (fromHex.add d) = true ∧
      ∃ k, 1 ≤ k ∧
        (∀ i, 1 ≤ i → i ≤ k →
          Board.isHexOccupied b (hexRay fromHex d i) = true) ∧
        Board.isHexOccupied b (hexRay fromHex d (k + 1)) = false ∧
        toHex = hexRay fromHex d (k + 1) := by
  unfold findHopperPath at hsucc
  cases hfind : hexDirections.find?
      (fun d => findHopperLanding b fromHex d movingId = some toHex) with
  | none => rw [hfind] at hsucc; simp at hsucc
  | some d =>
    have hd : d ∈ hexDirections := List.mem_of_find?_eq_some hfind
    have hland : findHopperLanding b fromHex d movingId = some toHex := by
      simpa using List.find?_some hfind
    unfold findHopperLanding at hland
    rw [hexRay_one] at hland
    rcases findHopperLandingAux_spec b movingId d fromHex 52 0 toHex hland
      with ⟨k, hk1, _, hint, hkE, hL⟩
    have hocc : ∀ i, 1 ≤ i →
        hopperEmptyAt b movingId (hexRay fromHex d i)
          = !(Board.isHexOccupied b (hexRay fromHex d i)) :=
      fun i hi => hopperEmptyAt_eq hid (hexRay_ne hd fromHex hi)
    refine ⟨d, hd, ?_, k, hk1, ?_, ?_, hL⟩
    · have h1 := hint 1 (le_refl 1) hk1
      rw [hocc 1 (le_refl 1)] at h1
      rw [hexRay_one]
      simpa using h1
    · intro i hi1 hi2
      have h1 := hint i hi1 hi2
      rw [hocc i hi1] at h1
      simpa using h1
    · have h1 := hkE
      rw [hocc (k + 1) (by omega)] at h1
      simpa using h1

theorem claim_C9_witness :
    IdOnlyAt bHop 9 ⟨0, 0⟩ ∧
    (findHopperPath bHop ⟨0, 0⟩ ⟨2, 0⟩ 9).success = true ∧
    (∃ d ∈ hexDirections,
      Board.isHexOccupied bHop (Hex.add ⟨0, 0⟩ d) = true ∧
      ∃ k, 1 ≤ k ∧
        (∀ i, 1 ≤ i → i ≤ k →
          Board.isHexOccupied bHop (hexRay ⟨0, 0⟩ d i) = true) ∧
        Board.isHexOccupied bHop (hexRay ⟨0, 0⟩ d (k + 1)) = false ∧
        (⟨2, 0⟩ : Hex) = hexRay ⟨0, 0⟩ d (k + 1)) :=
  ⟨by decide, by decide,
    claim_C9 bHop ⟨0, 0⟩ ⟨2, 0⟩ 9 (by decide) (by decide)⟩

/-- The board for the beetle claim: a beetle atop a spider, with an
occupied destination whose two common neighbors with the origin are both
empty. -/
def bC7 : Board :=
  [(⟨0, 0⟩, [⟨.one, .spider, 1⟩, ⟨.one, .beetle, 2⟩]),
   (⟨1, 0⟩, [⟨.two, .ant, 3⟩])]

/-- Claim C7 counterexample: the beetle on top of the stack at (0,0) may
step onto the occupied hex (1,0) even though neither common neighbor of
origin and destination is occupied, contradicting the claimed
if-and-only-if. -/
theorem claim_C7_counterexample :
    (Board.getInsectStack bC7 ⟨0, 0⟩).length > 1 ∧
    Hex.distance ⟨0, 0⟩ ⟨1, 0⟩ = 1 ∧
    (findBeetlePath bC7 ⟨0, 0⟩ ⟨1, 0⟩ 2).success = true ∧
    (∀ c ∈ (Hex.getNeighbors ⟨0, 0⟩).filter
        (fun f => (Hex.getNeighbors ⟨1, 0⟩).any (fun t => f = t)),
      Board.isHexOccupied bC7 c = false) := by
  decide

/-- Claim C7 as amended: for a beetle whose origin stack has height above
one, a move is accepted by the beetle validator exactly when the target is
adjacent and either the target is occupied (by something besides the
moving beetle), or some common neighbor of origin and target is so
occupied, or the target touches the hive ignoring the origin.  The
original claim's condition is only the middle disjunct. -/
theorem claim_C7 (b : Board) (fromHex toHex : Hex) (movingId : Nat)
    (hstack : (Board.getInsectStack b fromHex).length > 1) :
    (findBeetlePath b fromHex toHex movingId).success = true ↔
      (fromHex.distance toHex = 1 ∧
        (occupiedIgnoring b movingId toHex = true ∨
         (∃ c ∈ fromHex.getNeighbors, c ∈ toHex.getNeighbors ∧
            occupiedIgnoring b movingId c = true) ∨
         touchesHive b toHex movingId (some fromHex) = true)) := by
  unfold findBeetlePath
  by_cases hd : fromHex.distance toHex ≠ 1
  · rw [if_pos hd]
    simp only [show ¬(fromHex.distance toHex = 1) from hd]
    simp
  · rw [if_neg hd]
    rw [not_not] at hd
    have hontop : (Board.getInsectStack b fromHex).length > 1 := hstack
    have hmemn : toHex ∈ fromHex.getNeighbors :=
      Hex.distance_eq_one_iff.1 hd
    have hbeetle : (getBeetleNeighbors b fromHex movingId).any
        (fun n => n = toHex) = true ↔
        canBeetleMoveOnHive b fromHex toHex movingId = true := by
      constructor
      · intro h
        rcases List.any_eq_true.1 h with ⟨n, hn, heq⟩
        rcases List.mem_filter.1 hn with ⟨_, hp⟩
        rw [decide_eq_true_eq] at heq
        subst heq
        rw [if_pos hontop] at hp
        exact hp
      · intro h
        apply List.any_eq_true.2
        refine ⟨toHex, List.mem_filter.2 ⟨hmemn, ?_⟩, by simp⟩
        rw [if_pos hontop]
        exact h
    have hcb : canBeetleMoveOnHive b fromHex toHex movingId = true ↔
        (occupiedIgnoring b movingId toHex = true ∨
         (∃ c ∈ fromHex.getNeighbors, c ∈ toHex.getNeighbors ∧
            occupiedIgnoring b movingId c = true) ∨
         touchesHive b toHex movingId (some fromHex) = true) := by
      unfold canBeetleMoveOnHive
      by_cases h1 : occupiedIgnoring b movingId toHex = true
      · rw [if_pos h1]
        simp [h1]
      · rw [if_neg h1]
        dsimp only
        by_cases h2 : ((fromHex.getNeighbors.filter
            (fun f => toHex.getNeighbors.any (fun t => f = t))).any
            (fun c => occupiedIgnoring b movingId c)) = true
        · rw [if_pos h2]
          rcases List.any_eq_true.1 h2 with ⟨c, hc, hcc⟩
          rcases List.mem_filter.1 hc with ⟨hc1, hc2⟩
          rcases List.any_eq_true.1 hc2 with ⟨t, ht, htc⟩
          rw [decide_eq_true_eq] at htc
          subst htc
          exact ⟨fun _ => Or.inr (Or.inl ⟨c, hc1, ht, hcc⟩), fun _ => rfl⟩
        · rw [if_neg h2]
          constructor
          · intro h
            exact Or.inr (Or.inr h)
          · rintro (hx | ⟨c, hc1, hc2, hcc⟩ | hx)
            · exact absurd hx h1
            · exact absurd (List.any_eq_true.2
                ⟨c, List.mem_filter.2 ⟨hc1,
                  List.any_eq_true.2 ⟨c, hc2, by simp⟩⟩, hcc⟩) h2
            · exact hx
    constructor
    · intro h
      split at h
      · exact ⟨hd, hcb.1 (hbeetle.1 (by assumption))⟩
      · exact absurd h (by simp)
    · intro h
      have := hbeetle.2 (hcb.2 h.2)
      rw [if_pos this]
    
theorem claim_C7_witness :
    (Board.getInsectStack bC7 ⟨0, 0⟩).length > 1 ∧
    (findBeetlePath bC7 ⟨0, 0⟩ ⟨0, 1⟩ 2).success = true :=
  ⟨by decide,
    (claim_C7 bC7 ⟨0, 0⟩ ⟨0, 1⟩ 2 (by decide)).2
      ⟨by decide, Or.inr (Or.inr (by decide))⟩⟩

/-- A reachable-states relation built from the engine's own actions: a
committed placement, a committed move, or a voluntary pass (the pass
button runs endTurn whenever canPassTurn allows it). -/
inductive Step : GameState → GameState → Prop where
  | place (s : GameState) (hex : Hex) (kind : InsectKind) (newId : Nat)
      (h : (placeInsect s hex kind newId).2 = true) :
      Step s (placeInsect s hex kind newId).1
  | move (s : GameState) (insect : Insect) (target : Hex)
      (h : (moveInsect s insect target).2 = true) :
      Step s (moveInsect s insect target).1
  | pass (s : GameState) (h : canPassTurn s = true) : Step s (endTurn s)

/-- Game states reachable from a fresh game under a configuration. -/
def Reachable (cfg : Config) (s : GameState) : Prop :=
  Relation.ReflTransGen Step (initialState cfg) s

/-- The game used by claim C6: a player-one queen buried under a
player-two beetle at (0,0), with a player-one ant at (1,0). -/
def sBuried : GameState :=
  { initialState cfgStd with
    board := [(⟨0, 0⟩, [⟨.one, .queen, 1⟩, ⟨.two, .beetle, 2⟩]),
              (⟨1, 0⟩, [⟨.one, .ant, 3⟩])]
    queenPlaced := fun _ => true }

/-- Claim C6 is violated by the code: the player-one queen at (0,0) is not
the top of its height-2 stack (the top is the opposing beetle), yet
isValidMove validates moving it and moveInsect commits the move, splicing
the buried queen out from under the beetle and relocating it to (0,1).
The claim — only the top piece of a stack can have a move validated or
committed — is the stated intent (the source's own commit comment says
only the top of a stack is removed), so this is a code bug rather than a
spec error. -/
theorem claim_C6 :
    Board.getTopInsect sBuried.board ⟨0, 0⟩ = some ⟨.two, .beetle, 2⟩ ∧
    (Board.getInsectStack sBuried.board ⟨0, 0⟩).length = 2 ∧
    isValidMove sBuried ⟨.one, .queen, 1⟩ ⟨0, 0⟩ ⟨0, 1⟩ = true ∧
    (moveInsect sBuried ⟨.one, .queen, 1⟩ ⟨0, 1⟩).2 = true ∧
    Board.getInsectStack
      (moveInsect sBuried ⟨.one, .queen, 1⟩ ⟨0, 1⟩).1.board ⟨0, 0⟩ =
      [⟨.two, .beetle, 2⟩] ∧
    Board.getInsectStack
      (moveInsect sBuried ⟨.one, .queen, 1⟩ ⟨0, 1⟩).1.board ⟨0, 1⟩ =
      [⟨.one, .queen, 1⟩] := by
  decide

/-- The nine-action trace for claim C5: player one places four non-queen
pieces, both players pass in between, and player one's placement counter
passes the queen deadline without a queen. -/
def c5a : GameState := (placeInsect (initialState cfgStd) ⟨0, 0⟩ .ant 1).1

def c5b : GameState := (placeInsect c5a ⟨1, 0⟩ .ant 2).1

def c5c : GameState := (placeInsect c5b ⟨-1, 0⟩ .ant 3).1

def c5d : GameState := (placeInsect c5c ⟨2, 0⟩ .ant 4).1

def c5e : GameState := (placeInsect c5d ⟨-2, 0⟩ .hopper 5).1

def c5f : GameState := endTurn c5e

def c5g : GameState := endTurn c5f

def sC5 : GameState := endTurn c5g

/-- Claim C5 is violated by the code: the queen-deadline guard tests the
placement counter for equality with 3 only, and a voluntary pass (legal
once the counter reaches 2) pushes the counter past the test.  In the
reachable state below player one's counter is 4 with no queen placed, yet
placeInsect commits a spider.  The source's own comment — the queen MUST
be placed by turn 4 — and the specification agree that every non-queen
placement should be rejected from the fourth placement on, so this is a
code bug. -/
theorem claim_C5 :
    Reachable cfgStd sC5 ∧
    sC5.turnCount .one = 4 ∧
    sC5.queenPlaced .one = false ∧
    sC5.currentPlayer = .one ∧
    (placeInsect sC5 ⟨-3, 0⟩ .spider 6).2 = true := by
  have r0 : Reachable cfgStd (initialState cfgStd) :=
    Relation.ReflTransGen.refl
  have r1 : Reachable cfgStd c5a :=
    r0.tail (Step.place _ ⟨0, 0⟩ .ant 1 (by decide))
  have r2 : Reachable cfgStd c5b :=
    r1.tail (Step.place _ ⟨1, 0⟩ .ant 2 (by decide))
  have r3 : Reachable cfgStd c5c :=
    r2.tail (Step.place _ ⟨-1, 0⟩ .ant 3 (by decide))
  have r4 : Reachable cfgStd c5d :=
    r3.tail (Step.place _ ⟨2, 0⟩ .ant 4 (by decide))
  have r5 : Reachable cfgStd c5e :=
    r4.tail (Step.place _ ⟨-2, 0⟩ .hopper 5 (by decide))
  have r6 : Reachable cfgStd c5f := r5.tail (Step.pass _ (by decide))
  have r7 : Reachable cfgStd c5g := r6.tail (Step.pass _ (by decide))
  have r8 : Reachable cfgStd sC5 := r7.tail (Step.pass _ (by decide))
  exact ⟨r8, by decide, by decide, by decide, by decide⟩

/-! ## The ant claim: BFS soundness and completeness -/

theorem contains_eq_true_iff {l : List Hex} {x : Hex} :
    l.contains x = true ↔ x ∈ l := by
  simp

/-- A legal walking step as the specification defines it: the destination
is adjacent, empty, not behind a gate, and in contact with the hive when
the departure hex is ignored. -/
def LegalStep (b : Board) (movingId : Nat) (x y : Hex) : Prop :=
  y ∈ x.getNeighbors ∧ Board.isHexOccupied b y = false ∧
  isGate b x y movingId = false ∧
  touchesHive b y movingId (some x) = true

instance (b : Board) (movingId : Nat) (x y : Hex) :
    Decidable (LegalStep b movingId x y) := by
  unfold LegalStep; infer_instance

/-- The walking-step relation coincides with membership in
getWalkingNeighbors. -/
theorem legalStep_iff_mem {b : Board} {movingId : Nat} {x y : Hex} :
    LegalStep b movingId x y ↔ y ∈ getWalkingNeighbors b x movingId := by
  unfold LegalStep getWalkingNeighbors
  constructor
  · rintro ⟨h1, h2, h3, h4⟩
    refine List.mem_filter.2 ⟨h1, ?_⟩
    rw [if_neg (by rw [h2]; exact Bool.false_ne_true),
      if_neg (by rw [h3]; exact Bool.false_ne_true)]
    exact h4
  · intro h
    rcases List.mem_filter.1 h with ⟨h1, h2⟩
    by_cases hocc : Board.isHexOccupied b y = true
    · rw [if_pos hocc] at h2
      exact absurd h2 Bool.false_ne_true
    rw [if_neg hocc] at h2
    by_cases hg : isGate b x y movingId = true
    · rw [if_pos hg] at h2
      exact absurd h2 Bool.false_ne_true
    rw [if_neg hg] at h2
    exact ⟨h1, by simpa using hocc, by simpa using hg, h2⟩

/-- Every hex reachable in one walking step touches an occupied hex, so
walking neighbors live among the neighbors of the board's keys. -/
def antCand (b : Board) : List Hex :=
  (Board.keys b).flatMap Hex.getNeighbors

theorem mem_antCand_of_walking {b : Board} {movingId : Nat} {x y : Hex}
    (h : y ∈ getWalkingNeighbors b x movingId) : y ∈ antCand b := by
  rcases (legalStep_iff_mem.2 h).2.2.2 with htouch
  unfold touchesHive at htouch
  rcases List.any_eq_true.1 htouch with ⟨n, hn, hcond⟩
  have hx : ¬(some x = some n) := by
    intro hc
    rw [if_pos hc] at hcond
    exact Bool.false_ne_true hcond
  rw [if_neg hx] at hcond
  dsimp only at hcond
  by_cases hie : (Board.getInsectStack b n).isEmpty = true
  · rw [if_pos hie] at hcond
    exact absurd hcond Bool.false_ne_true
  · have hne : Board.getInsectStack b n ≠ [] := by
      intro hc
      exact hie (by simp [hc])
    rcases Board.exists_entry_of_stack_ne_nil hne with ⟨e, heb, hk, -⟩
    exact List.mem_flatMap.2 ⟨n, hk ▸ List.mem_map.2 ⟨e, heb, rfl⟩,
      Hex.getNeighbors_symm hn⟩

theorem antCand_length (b : Board) : (antCand b).length = 6 * b.length := by
  unfold antCand Board.keys
  induction b with
  | nil => rfl
  | cons e t ih =>
    rw [List.map_cons, List.flatMap_cons, List.length_append, ih]
    have h6 : (Hex.getNeighbors e.1).length = 6 := by
      simp [Hex.getNeighbors, hexDirections]
    rw [h6]
    simp [List.length_cons]
    ring

/-- The counting step behind the fuel bound: adding a batch of new,
distinct, not-yet-visited candidate hexes to the visited list shrinks the
unvisited-candidate count by at least the batch size. -/
theorem filter_not_mem_append_length {cand v ns : List Hex}
    (hnodup : ns.Nodup) (hsub : ∀ x ∈ ns, x ∈ cand)
    (hdisj : ∀ x ∈ ns, x ∉ v) :
    (cand.filter (fun x => !(v ++ ns).contains x)).length + ns.length ≤
      (cand.filter (fun x => !v.contains x)).length := by
  have hff : cand.filter (fun x => !(v ++ ns).contains x) =
      (cand.filter (fun x => !v.contains x)).filter
        (fun x => !ns.contains x) := by
    rw [List.filter_filter]
    apply List.filter_congr
    intro x _
    have hv : v.contains x = decide (x ∈ v) := by
      cases h : v.contains x <;>
        simp [contains_eq_true_iff] at h <;> simp [h]
    have hns : ns.contains x = decide (x ∈ ns) := by
      cases h : ns.contains x <;>
        simp [contains_eq_true_iff] at h <;> simp [h]
    have happ : (v ++ ns).contains x = (v.contains x || ns.contains x) := by
      cases h1 : v.contains x <;> cases h2 : ns.contains x <;>
        simp [contains_eq_true_iff, List.mem_append] at h1 h2 ⊢ <;>
        tauto
    rw [happ, Bool.not_or, Bool.and_comm]
  set l1 := cand.filter (fun x => !v.contains x) with hl1
  have hnl : ∀ x ∈ ns, x ∈ l1 := by
    intro x hx
    rw [hl1]
    refine List.mem_filter.2 ⟨hsub x hx, ?_⟩
    simp [contains_eq_true_iff]
    exact hdisj x hx
  have hcount : ns.length ≤ (l1.filter (fun x => ns.contains x)).length := by
    calc ns.length = ns.toFinset.card :=
          (List.toFinset_card_of_nodup hnodup).symm
      _ ≤ (l1.filter (fun x => ns.contains x)).toFinset.card := by
          apply Finset.card_le_card
          intro x hx
          rw [List.mem_toFinset] at hx
          rw [List.mem_toFinset]
          refine List.mem_filter.2 ⟨hnl x hx, ?_⟩
          simpa [contains_eq_true_iff] using hx
      _ ≤ (l1.filter (fun x => ns.contains x)).length :=
          List.toFinset_card_le _
  have hsplit : (l1.filter (fun x => !ns.contains x)).length +
      (l1.filter (fun x => ns.contains x)).length = l1.length := by
    have h1 : (l1.filter (fun x => !ns.contains x)).length
        = l1.countP (fun x => decide (¬ns.contains x = true)) := by
      rw [← List.countP_eq_length_filter]
      apply List.countP_congr
      intro x _
      cases h : ns.contains x <;> simp [h]
    rw [h1, ← List.countP_eq_length_filter]
    have := List.length_eq_countP_add_countP
      (fun x => ns.contains x) (l := l1)
    omega
  rw [hff]
  omega

/-- With fuel exceeding the queue length plus the number of unvisited
candidate hexes, the ant search cannot run out of fuel: every processed
queue entry either terminates the search or converts distinct unvisited
candidates into visited ones. -/
theorem antBFSAux_isSome (b : Board) (toHex : Hex) (movingId : Nat) :
    ∀ (fuel : Nat) (queue : List (Hex × List Hex)) (visited : List Hex),
      queue.length + ((antCand b).filter
        (fun x => !visited.contains x)).length < fuel →
      antBFSAux b toHex movingId fuel queue visited ≠ none := by
  intro fuel
  induction fuel with
  | zero => intro q v h; exact absurd h (Nat.not_lt_zero _)
  | succ n ih =>
    intro queue visited hm
    match queue with
    | [] => simp [antBFSAux]
    | (h0, p) :: rest =>
      by_cases hto : h0 = toHex
      · unfold antBFSAux
        rw [if_pos hto]
        simp
      · unfold antBFSAux
        rw [if_neg hto]
        dsimp only
        apply ih
        have hnodup : ((getWalkingNeighbors b h0 movingId).filter
            (fun n => !visited.contains n)).Nodup :=
          List.Nodup.filter _ (List.Nodup.filter _
            (Hex.getNeighbors_nodup h0))
        have hsub : ∀ x ∈ (getWalkingNeighbors b h0 movingId).filter
            (fun n => !visited.contains n), x ∈ antCand b := by
          intro x hx
          exact mem_antCand_of_walking (List.mem_of_mem_filter hx)
        have hdisj : ∀ x ∈ (getWalkingNeighbors b h0 movingId).filter
            (fun n => !visited.contains n), x ∉ visited := by
          intro x hx
          have := List.of_mem_filter hx
          simpa [contains_eq_true_iff] using this
        have hcount := @filter_not_mem_append_length (antCand b) visited
          ((getWalkingNeighbors b h0 movingId).filter
            (fun n => !visited.contains n)) hnodup hsub hdisj
        rw [List.length_append, List.length_map]
        rw [List.length_cons] at hm
        omega

/-- When the ant search drains its queue without success, the final
visited set contains every hex ever visited, avoids the target, and is
closed under walking steps. -/
theorem antBFSAux_none_closed (b : Board) (toHex : Hex) (movingId : Nat) :
    ∀ (fuel : Nat) (queue : List (Hex × List Hex)) (visited vf : List Hex),
      antBFSAux b toHex movingId fuel queue visited = some (none, vf) →
      (∀ e ∈ queue, e.1 ∈ visited) →
      (∀ x ∈ visited, (∀ e ∈ queue, e.1 ≠ x) →
        x ≠ toHex ∧
        ∀ y ∈ getWalkingNeighbors b x movingId, y ∈ visited) →
      (∀ x ∈ visited, x ∈ vf) ∧
      (∀ x ∈ vf, x ≠ toHex ∧
        ∀ y ∈ getWalkingNeighbors b x movingId, y ∈ vf) := by
  intro fuel
  induction fuel with
  | zero => intro q v vf h _ _; cases h
  | succ n ih =>
    intro queue visited vf h hq hdone
    match queue with
    | [] =>
      unfold antBFSAux at h
      obtain ⟨h1, h2⟩ := Prod.mk.injEq .. ▸ Option.some.inj h
      subst h2
      exact ⟨fun x hx => hx, fun x hx => hdone x hx (by simp)⟩
    | (h0, p) :: rest =>
      by_cases hto : h0 = toHex
      · unfold antBFSAux at h
        rw [if_pos hto] at h
        simp at h
      · unfold antBFSAux at h
        rw [if_neg hto] at h
        dsimp only at h
        have hmain := ih
          (rest ++ ((getWalkingNeighbors b h0 movingId).filter
            (fun n => !visited.contains n)).map (fun n => (n, p ++ [n])))
          (visited ++ (getWalkingNeighbors b h0 movingId).filter
            (fun n => !visited.contains n)) vf h ?_ ?_
        · exact ⟨fun x hx => hmain.1 x (List.mem_append.2 (Or.inl hx)),
            hmain.2⟩
        · intro e he
          rcases List.mem_append.1 he with he' | he'
          · exact List.mem_append.2
              (Or.inl (hq e (List.mem_cons_of_mem _ he')))
          · rcases List.mem_map.1 he' with ⟨n, hn, rfl⟩
            exact List.mem_append.2 (Or.inr hn)
        · intro x hx hnotin
          rcases List.mem_append.1 hx with hx' | hx'
          · by_cases hxh : x = h0
            · subst hxh
              refine ⟨hto, ?_⟩
              intro y hy
              by_cases hyv : y ∈ visited
              · exact List.mem_append.2 (Or.inl hyv)
              · refine List.mem_append.2 (Or.inr (List.mem_filter.2
                  ⟨hy, ?_⟩))
                simpa [contains_eq_true_iff] using hyv
            · have hold := hdone x hx' ?_
              · exact ⟨hold.1, fun y hy =>
                  List.mem_append.2 (Or.inl (hold.2 y hy))⟩
              · intro e he
                rcases List.mem_cons.1 he with rfl | he'
                · simpa using fun hc => hxh hc.symm
                · exact hnotin e (List.mem_append.2 (Or.inl he'))
          · exfalso
            exact hnotin (x, p ++ [x])
              (List.mem_append.2 (Or.inr (List.mem_map.2 ⟨x, hx', rfl⟩)))
              rfl

/-- Every path the ant search returns with success starts at the origin,
ends at the target, and advances by walking steps. -/
theorem antBFSAux_some_sound (b : Board) (toHex fromHex : Hex)
    (movingId : Nat) :
    ∀ (fuel : Nat) (queue : List (Hex × List Hex)) (visited vf : List Hex)
      (p : List Hex),
      antBFSAux b toHex movingId fuel queue visited = some (some p, vf) →
      (∀ e ∈ queue, e.2.head? = some fromHex ∧
        e.2.getLast? = some e.1 ∧
        List.Chain' (fun x y => y ∈ getWalkingNeighbors b x movingId) e.2) →
      p.head? = some fromHex ∧ p.getLast? = some toHex ∧
      List.Chain' (fun x y => y ∈ getWalkingNeighbors b x movingId) p := by
  intro fuel
  induction fuel with
  | zero => intro q v vf p h _; cases h
  | succ n ih =>
    intro queue visited vf p h hq
    match queue with
    | [] =>
      unfold antBFSAux at h
      simp at h
    | (h0, pp) :: rest =>
      by_cases hto : h0 = toHex
      · unfold antBFSAux at h
        rw [if_pos hto] at h
        obtain ⟨h1, -⟩ := Prod.mk.injEq .. ▸ Option.some.inj h
        obtain rfl := Option.some.inj h1
        rcases hq (h0, pp) (by simp) with ⟨hh, hl, hc⟩
        exact ⟨hh, hto ▸ hl, hc⟩
      · unfold antBFSAux at h
        rw [if_neg hto] at h
        dsimp only at h
        apply ih _ _ _ _ h
        intro e he
        rcases List.mem_append.1 he with he' | he'
        · exact hq e (List.mem_cons_of_mem _ he')
        · rcases List.mem_map.1 he' with ⟨m, hm, rfl⟩
          rcases hq (h0, pp) (by simp) with ⟨hh, hl, hc⟩
          have hppne : pp ≠ [] := by
            intro hcontra
            rw [hcontra] at hl
            simp at hl
          refine ⟨?_, ?_, ?_⟩
          · dsimp only
            cases pp with
            | nil => exact absurd rfl hppne
            | cons a t => simpa using hh
          · dsimp only
            simp
          · dsimp only
            rw [List.chain'_append]
            refine ⟨hc, List.chain'_singleton m, ?_⟩
            intro x hx y hy
            simp only [List.head?_cons, Option.mem_def,
              Option.some.injEq] at hy
            subst hy
            rw [hl] at hx
            simp only [Option.mem_def, Option.some.injEq] at hx
            subst hx
            exact List.mem_of_mem_filter hm

/-- The board for the ant witness: a single queen walked around. -/
def bAnt : Board := [(⟨0, 0⟩, [⟨.one, .queen, 1⟩])]

/-- Claim C2: if any path of legal walking steps (adjacent, empty, passing
the contact and gate tests) leads from the origin to the target, then
findAntPath reports success; and any path it returns with success starts
at the origin, ends at the target, and every consecutive pair of its
hexes is one legal walking step (adjacent, unoccupied, no gate, in
contact with the hive). -/
theorem claim_C2 (b : Board) (fromHex toHex : Hex) (movingId : Nat) :
    ((Relation.ReflTransGen (LegalStep b movingId) fromHex toHex) →
      (findAntPath b fromHex toHex movingId).success = true) ∧
    ((findAntPath b fromHex toHex movingId).success = true →
      (findAntPath b fromHex toHex movingId).path.head? = some fromHex ∧
      (findAntPath b fromHex toHex movingId).path.getLast? = some toHex ∧
      List.Chain' (LegalStep b movingId)
        (findAntPath b fromHex toHex movingId).path) := by
  rcases hres : antBFSAux b toHex movingId (antFuel b)
      [(fromHex, [fromHex])] [fromHex] with - | ⟨res, vf⟩
  · exfalso
    refine antBFSAux_isSome b toHex movingId (antFuel b)
      [(fromHex, [fromHex])] [fromHex] ?_ hres
    have hle : ((antCand b).filter
        (fun x => !([fromHex].contains x))).length ≤ (antCand b).length :=
      List.length_filter_le _ _
    rw [antFuel]
    rw [antCand_length] at hle
    simp only [List.length_cons, List.length_nil]
    omega
  · cases res with
    | some p =>
      have hfa : findAntPath b fromHex toHex movingId =
          { success := true, path := p, blockedAt := none } := by
        unfold findAntPath
        rw [hres]
      have hsound := antBFSAux_some_sound b toHex fromHex movingId
        (antFuel b) [(fromHex, [fromHex])] [fromHex] vf p hres
        (by intro e he; simp at he; subst he; simp)
      constructor
      · intro _
        rw [hfa]
      · intro _
        rw [hfa]
        exact ⟨hsound.1, hsound.2.1,
          List.Chain'.imp (fun a c hac => legalStep_iff_mem.2 hac)
            hsound.2.2⟩
    | none =>
      have hfa : (findAntPath b fromHex toHex movingId).success = false := by
        unfold findAntPath
        rw [hres]
      constructor
      · intro hreach
        exfalso
        have hclosed := antBFSAux_none_closed b toHex movingId (antFuel b)
          [(fromHex, [fromHex])] [fromHex] vf hres
          (by intro e he; simp at he; subst he; simp)
          (by
            intro x hx hne
            simp only [List.mem_singleton] at hx
            subst hx
            exact absurd rfl (hne (x, [x]) (by simp)))
        have hfrom : fromHex ∈ vf := hclosed.1 fromHex (by simp)
        have hall : ∀ z,
            Relation.ReflTransGen (LegalStep b movingId) fromHex z →
            z ∈ vf := by
          intro z hz
          induction hz with
          | refl => exact hfrom
          | tail h1 step ih =>
            exact (hclosed.2 _ ih).2 _ (legalStep_iff_mem.1 step)
        exact (hclosed.2 toHex (hall toHex hreach)).1 rfl
      · intro hsucc
        rw [hfa] at hsucc
        cases hsucc

theorem claim_C2_witness :
    LegalStep bAnt 9 ⟨1, 0⟩ ⟨0, 1⟩ ∧
    (findAntPath bAnt ⟨1, 0⟩ ⟨0, 1⟩ 9).success = true :=
  ⟨by decide, (claim_C2 bAnt ⟨1, 0⟩ ⟨0, 1⟩ 9).1
    (Relation.ReflTransGen.single (by decide))⟩

/-! ## The One-Hive claim -/

theorem checkWinCondition_board (s : GameState) :
    (checkWinCondition s).board = s.board := by
  unfold checkWinCondition
  split <;> rfl

theorem endTurn_board (s : GameState) : (endTurn s).board = s.board := rfl

/-- What a committed placement guarantees: the hex was empty, the
adjacency rule held on a non-empty board, and the new board is the old one
with the piece pushed onto the placed hex. -/
theorem placeInsect_commit {s : GameState} {hex : Hex} {kind : InsectKind}
    {newId : Nat} (h : (placeInsect s hex kind newId).2 = true) :
    Board.isHexOccupied s.board hex = false ∧
    (s.board.length > 0 → canPlaceInsect s hex = true) ∧
    (placeInsect s hex kind newId).1.board =
      s.board.addInsectToHex hex ⟨s.currentPlayer, kind, newId⟩ := by
  unfold placeInsect at h ⊢
  by_cases h1 : s.config.tournamentRules = true ∧ kind = .queen ∧
      s.turnCount s.currentPlayer = 0
  · rw [if_pos h1] at h; cases h
  rw [if_neg h1] at h ⊢
  by_cases h2 : (!s.queenPlaced s.currentPlayer) = true ∧
      s.turnCount s.currentPlayer = 3 ∧ kind ≠ .queen
  · rw [if_pos h2] at h; cases h
  rw [if_neg h2] at h ⊢
  by_cases h3 : Board.isHexOccupied s.board hex = true
  · rw [if_pos h3] at h; cases h
  rw [if_neg h3] at h ⊢
  by_cases h4 : s.board.length > 0 ∧ (!canPlaceInsect s hex) = true
  · rw [if_pos h4] at h; cases h
  rw [if_neg h4]
  refine ⟨by simpa using h3, ?_, ?_⟩
  · intro hlen
    by_contra hc
    exact h4 ⟨hlen, by simpa using hc⟩
  · dsimp only
    rw [endTurn_board, checkWinCondition_board]

/-- A successful adjacency check on a non-empty well-formed board yields
an occupied neighbor. -/
theorem canPlaceInsect_neighbor {s : GameState} {hex : Hex}
    (hWF : Board.WF s.board) (hne : s.board ≠ [])
    (h : canPlaceInsect s hex = true) :
    ∃ n ∈ hex.getNeighbors, n ∈ Board.keys s.board := by
  have hsum := topPieceCount_add hWF s.currentPlayer
  have hlen : s.board.length ≠ 0 := by
    intro hc; exact hne (List.length_eq_zero.1 hc)
  have hA : ¬(topPieceCount s.board s.currentPlayer = 0 ∧
      topPieceCount s.board s.currentPlayer.other = 0) := by
    intro hc; omega
  have hkey : ∀ n : Hex, ∀ i : Insect,
      Board.getTopInsect s.board n = some i → n ∈ Board.keys s.board := by
    intro n i hi
    refine (Board.getInsectStack_ne_nil_iff hWF).1 ?_
    intro hc
    rw [Board.getTopInsect, hc] at hi
    cases hi
  simp only [canPlaceInsect] at h
  rw [if_neg hA] at h
  by_cases hB : topPieceCount s.board s.currentPlayer = 0 ∧
      topPieceCount s.board s.currentPlayer.other > 0
  · rw [if_pos hB] at h
    rcases List.any_eq_true.1 h with ⟨n, hn, hcond⟩
    rcases optionAny_eq_true.1 hcond with ⟨i, hi, -⟩
    exact ⟨n, hn, hkey n i hi⟩
  · rw [if_neg hB] at h
    rcases Bool.and_eq_true_iff.1 h with ⟨hf, -⟩
    rcases List.any_eq_true.1 hf with ⟨n, hn, hcond⟩
    rcases optionAny_eq_true.1 hcond with ⟨i, hi, -⟩
    exact ⟨n, hn, hkey n i hi⟩

/-- Membership in the keys after addInsectToHex: the old keys plus the
target hex. -/
theorem Board.keys_addInsectToHex_mem (b : Board) (h : Hex) (i : Insect)
    (y : Hex) :
    y ∈ Board.keys (Board.addInsectToHex b h i) ↔
      y ∈ Board.keys b ∨ y = h := by
  unfold Board.addInsectToHex
  by_cases hany : b.any (fun e => e.1 = h) = true
  · rw [if_pos hany]
    have hkeys : Board.keys (b.map
        (fun e => if e.1 = h then (e.1, e.2 ++ [i]) else e)) =
        Board.keys b := by
      unfold Board.keys
      rw [List.map_map]
      apply List.map_congr_left
      intro e _
      by_cases he : e.1 = h <;> simp [he]
    rw [hkeys]
    rcases List.any_eq_true.1 hany with ⟨e, he, hek⟩
    rw [decide_eq_true_eq] at hek
    constructor
    · exact fun hy => Or.inl hy
    · rintro (hy | rfl)
      · exact hy
      · exact hek ▸ List.mem_map.2 ⟨e, he, rfl⟩
  · rw [if_neg hany]
    unfold Board.keys
    rw [List.map_append]
    simp

/-- On a well-formed board an occupied hex determines its entry. -/
theorem Board.entry_unique {b : Board} (hWF : Board.WF b)
    {e e' : Hex × List Insect} (he : e ∈ b) (he' : e' ∈ b)
    (hk : e.1 = e'.1) : e = e' := by
  induction b with
  | nil => cases he
  | cons f t ih =>
    rcases List.mem_cons.1 he with rfl | het
    · rcases List.mem_cons.1 he' with rfl | het'
      · rfl
      · exfalso
        have h1 : e.1 ∉ Board.keys t := (List.nodup_cons.1 hWF.keys_nodup).1
        exact h1 (hk ▸ List.mem_map.2 ⟨e', het', rfl⟩)
    · rcases List.mem_cons.1 he' with rfl | het'
      · exfalso
        have h1 : e'.1 ∉ Board.keys t := (List.nodup_cons.1 hWF.keys_nodup).1
        exact h1 (hk ▸ List.mem_map.2 ⟨e, het, rfl⟩)
      · exact ih hWF.tail het het'

/-- When the moving insect really sits in the stack at its hex, the splice
of moveInsect leaves occupied exactly the hexes that
isHiveConnectedWithout considers remaining. -/
theorem Board.keys_spliceInsect {b : Board} (hWF : Board.WF b)
    {e : Hex × List Insect} (he : e ∈ b) {id : Nat}
    (hin : e.2.any (fun bug => bug.id = id) = true) :
    Board.keys (Board.spliceInsect b e.1 id) = remainingAfter b e.1 := by
  unfold Board.spliceInsect remainingAfter Board.keys
  rw [List.map_filterMap]
  apply List.filterMap_congr
  intro e' he'
  by_cases hk : e'.1 = e.1
  · have hee : e' = e := Board.entry_unique hWF he' he hk
    subst hee
    rw [if_pos rfl, if_pos rfl]
    rcases List.any_eq_true.1 hin with ⟨bug, hbug, hbid⟩
    rw [decide_eq_true_eq] at hbid
    have herase : (e'.2.eraseP (fun b => b.id = id)).length =
        e'.2.length - 1 := by
      apply List.length_eraseP_of_mem hbug
      simpa using hbid
    have hlen0 : e'.2.length ≠ 0 := by
      intro hc
      rw [List.length_eq_zero] at hc
      exact hWF.stacks_ne_nil e' he' hc
    dsimp only
    by_cases hlen : e'.2.length > 1
    · have hne : (e'.2.eraseP (fun b => b.id = id)).isEmpty = false := by
        cases hcase : e'.2.eraseP (fun b => b.id = id) with
        | nil =>
          exfalso
          rw [hcase] at herase
          simp only [List.length_nil] at herase
          omega
        | cons a t => rfl
      rw [hne, if_pos hlen]
      simp
    · have hemp : (e'.2.eraseP (fun b => b.id = id)).isEmpty = true := by
        cases hcase : e'.2.eraseP (fun b => b.id = id) with
        | nil => rfl
        | cons a t =>
          exfalso
          rw [hcase] at herase
          simp only [List.length_cons] at herase
          omega
      rw [hemp, if_neg hlen]
      simp
  · rw [if_neg hk, if_neg hk]
    simp

/-- What a committed move guarantees: an entry holding the moving insect
was found, the move validated, the remaining hive was connected, and the
new board is splice-then-add. -/
theorem moveInsect_commit {s : GameState} {insect : Insect} {target : Hex}
    (h : (moveInsect s insect target).2 = true) :
    ∃ e, s.board.find? (fun e => e.2.any (fun bug => bug.id = insect.id))
        = some e ∧
      isValidMove s insect e.1 target = true ∧
      isHiveConnectedWithout s.board e.1 = true ∧
      (moveInsect s insect target).1.board =
        (s.board.spliceInsect e.1 insect.id).addInsectToHex target insect := by
  unfold moveInsect at h ⊢
  by_cases h1 : (!s.queenPlaced s.currentPlayer) = true
  · rw [if_pos h1] at h; cases h
  rw [if_neg h1] at h ⊢
  by_cases h2 : s.config.tournamentRules = true ∧
      insect.insect = .queen ∧ s.turnCount s.currentPlayer = 0
  · rw [if_pos h2] at h; cases h
  rw [if_neg h2] at h ⊢
  cases hfind : s.board.find?
      (fun e => e.2.any (fun bug => bug.id = insect.id)) with
  | none => rw [hfind] at h; cases h
  | some e =>
    rw [hfind] at h
    dsimp only at h ⊢
    by_cases h3 : (!isValidMove s insect e.1 target) = true
    · rw [if_pos h3] at h; cases h
    rw [if_neg h3] at h ⊢
    by_cases h4 : (!isHiveConnectedWithout s.board e.1) = true
    · rw [if_pos h4] at h; cases h
    rw [if_neg h4]
    refine ⟨e, rfl, by simpa using h3, by simpa using h4, ?_⟩
    dsimp only
    rw [endTurn_board, checkWinCondition_board]

/-- A positive contact test names an occupied neighbor other than the
excluded hex. -/
theorem touchesHive_attach {b : Board} {x home : Hex} {id : Nat}
    (h : touchesHive b x id (some home) = true) :
    ∃ n ∈ x.getNeighbors, n ≠ home ∧ n ∈ Board.keys b := by
  unfold touchesHive at h
  rcases List.any_eq_true.1 h with ⟨n, hn, hcond⟩
  have hx : ¬(some home = some n) := by
    intro hc
    rw [if_pos hc] at hcond
    exact Bool.false_ne_true hcond
  rw [if_neg hx] at hcond
  dsimp only at hcond
  by_cases hie : (Board.getInsectStack b n).isEmpty = true
  · rw [if_pos hie] at hcond
    exact absurd hcond Bool.false_ne_true
  · have hne : Board.getInsectStack b n ≠ [] := by
      intro hc
      exact hie (by simp [hc])
    rcases Board.exists_entry_of_stack_ne_nil hne with ⟨e, heb, hk, -⟩
    exact ⟨n, hn, fun hc => hx (by rw [hc]), hk ▸ List.mem_map.2
      ⟨e, heb, rfl⟩⟩

/-- A validated move's target touches an occupied hex other than the
origin, unless at most one hex is occupied. -/
theorem isValidMove_attach {s : GameState} {insect : Insect}
    {fromHex target : Hex} (h : isValidMove s insect fromHex target = true) :
    (∃ n ∈ target.getNeighbors, n ≠ fromHex ∧ n ∈ Board.keys s.board) ∨
      s.board.length ≤ 1 := by
  unfold isValidMove at h
  rcases List.any_eq_true.1 h with ⟨mt, -, hmt⟩
  cases mt with
  | normal kind =>
    unfold canMoveUsingType canMoveNormally at hmt
    by_cases hclimb : Board.isHexOccupied s.board target = true ∧
        ¬(insect.insect = .beetle ∨ (insect.insect = .mosquito ∧
          canMosquitoClimbAsBeelle s.board fromHex insect.id = true))
    · rw [if_pos hclimb] at hmt; cases hmt
    rw [if_neg hclimb] at hmt
    dsimp only at hmt
    by_cases htouch : (!(target.getNeighbors.any fun n =>
        if n = fromHex then false else Board.isHexOccupied s.board n))
          = true ∧ s.board.length > 1
    · rw [if_pos htouch] at hmt; cases hmt
    · by_cases hlen : s.board.length ≤ 1
      · exact Or.inr hlen
      · left
        have hany : (target.getNeighbors.any fun n =>
            if n = fromHex then false
            else Board.isHexOccupied s.board n) = true := by
          by_contra hc
          exact htouch ⟨by simpa using hc, by omega⟩
        rcases List.any_eq_true.1 hany with ⟨n, hn, hcond⟩
        by_cases hnf : n = fromHex
        · rw [if_pos hnf] at hcond; cases hcond
        · rw [if_neg hnf] at hcond
          exact ⟨n, hn, hnf, Board.mem_keys_of_isHexOccupied hcond⟩
  | pillbugThrow throwerHex throwerId =>
    unfold canMoveUsingType findPillbugThrowPath at hmt
    dsimp only at hmt
    by_cases hdest : ((getPillbugThrowDestinations s.board throwerHex
        fromHex insect.id).any fun d => d = target) = true
    · rcases List.any_eq_true.1 hdest with ⟨d, hd, hdeq⟩
      rw [decide_eq_true_eq] at hdeq
      subst hdeq
      rcases List.mem_filter.1 hd with ⟨-, hp⟩
      by_cases hne : d = fromHex
      · rw [if_pos hne] at hp; cases hp
      · rw [if_neg hne] at hp
        rcases Bool.and_eq_true_iff.1 hp with ⟨-, htch⟩
        exact Or.inl (touchesHive_attach htch)
    · rw [if_neg (by simpa using hdest)] at hmt
      cases hmt
  | mosquitoThrow throwerHex throwerId =>
    unfold canMoveUsingType findPillbugThrowPath at hmt
    dsimp only at hmt
    by_cases hdest : ((getPillbugThrowDestinations s.board throwerHex
        fromHex insect.id).any fun d => d = target) = true
    · rcases List.any_eq_true.1 hdest with ⟨d, hd, hdeq⟩
      rw [decide_eq_true_eq] at hdeq
      subst hdeq
      rcases List.mem_filter.1 hd with ⟨-, hp⟩
      by_cases hne : d = fromHex
      · rw [if_pos hne] at hp; cases hp
      · rw [if_neg hne] at hp
        rcases Bool.and_eq_true_iff.1 hp with ⟨-, htch⟩
        exact Or.inl (touchesHive_attach htch)
    · rw [if_neg (by simpa using hdest)] at hmt
      cases hmt

/-! ## A one-hex board supports no move

When the whole hive is a single occupied hex carrying a stack of two or
more insects, every movement validator fails; this is the corner case of
the One-Hive proof where the engine skips its own contact test. -/

theorem stack_single (f : Hex) (st : List Insect) (x : Hex) :
    Board.getInsectStack [(f, st)] x = if x = f then st else [] := by
  unfold Board.getInsectStack
  by_cases hx : x = f
  · rw [if_pos hx, List.find?_cons_of_pos _ (by simp [hx])]
    rfl
  · rw [if_neg hx, List.find?_cons_of_neg _
      (by simpa using fun hc => hx hc.symm)]
    rfl

theorem occupied_single_ne {f : Hex} {st : List Insect} {x : Hex}
    (hx : x ≠ f) : Board.isHexOccupied [(f, st)] x = false := by
  rw [Board.isHexOccupied, stack_single, if_neg hx]
  rfl

theorem touchesHive_single (f : Hex) (st : List Insect) (x : Hex)
    (id : Nat) : touchesHive [(f, st)] x id (some f) = false := by
  unfold touchesHive
  rw [List.any_eq_false]
  intro n hn
  by_cases hfn : (some f : Option Hex) = some n
  · rw [if_pos hfn]
    simp
  · rw [if_neg hfn]
    dsimp only
    have hnf : n ≠ f := fun hc => hfn (by rw [hc])
    rw [stack_single, if_neg hnf]
    simp

theorem walking_single (f : Hex) (st : List Insect) (id : Nat) :
    getWalkingNeighbors [(f, st)] f id = [] := by
  unfold getWalkingNeighbors
  rw [List.filter_eq_nil_iff]
  intro n hn
  have hnf : n ≠ f := by
    intro hc
    exact Hex.self_not_mem_getNeighbors f (hc ▸ hn)
  rw [occupied_single_ne hnf]
  simp only [Bool.false_eq_true, if_false]
  by_cases hg : isGate [(f, st)] f n id = true
  · rw [if_pos hg]
    simp
  · rw [if_neg hg, touchesHive_single]
    simp

theorem queenPath_single {f t : Hex} {st : List Insect} {id : Nat} :
    (findQueenPath [(f, st)] f t id).success = false := by
  unfold findQueenPath
  by_cases hd : f.distance t ≠ 1
  · rw [if_pos hd]
  · rw [if_neg hd, walking_single]
    simp

theorem pillbugPath_single {f t : Hex} {st : List Insect} {id : Nat} :
    (findPillbugPath [(f, st)] f t id).success = false := by
  unfold findPillbugPath
  by_cases hd : f.distance t ≠ 1
  · rw [if_pos hd]
  · rw [if_neg hd, walking_single]
    simp

theorem antBFSAux_empty_queue (b : Board) (t : Hex) (id : Nat)
    (n : Nat) (v : List Hex) :
    antBFSAux b t id (n + 1) [] v = some (none, v) := rfl

theorem antPath_single {f t : Hex} {st : List Insect} {id : Nat}
    (hft : f ≠ t) : (findAntPath [(f, st)] f t id).success = false := by
  have haux : ∀ n : Nat, antBFSAux [(f, st)] t id (n + 2) [(f, [f])] [f] =
      some (none, [f]) := by
    intro n
    unfold antBFSAux
    rw [if_neg hft, walking_single]
    exact antBFSAux_empty_queue _ _ _ _ _
  have h9 : antFuel [(f, st)] = 7 + 2 := by
    simp [antFuel]
  unfold findAntPath
  rw [h9, haux 7]

theorem canBeetleMoveOnHive_single {f n : Hex} {st : List Insect}
    {id : Nat} (hnf : n ≠ f) :
    canBeetleMoveOnHive [(f, st)] f n id = false := by
  unfold canBeetleMoveOnHive
  have hocc : occupiedIgnoring [(f, st)] id n = false := by
    unfold occupiedIgnoring
    rw [stack_single, if_neg hnf]
    simp
  rw [if_neg (by rw [hocc]; exact Bool.false_ne_true)]
  dsimp only
  have hcomm : ((f.getNeighbors.filter
      (fun c => n.getNeighbors.any (fun t => c = t))).any
      (fun c => occupiedIgnoring [(f, st)] id c)) = false := by
    rw [List.any_eq_false]
    intro c hc
    have hcf : c ≠ f := by
      intro hcc
      have hcmem := List.mem_of_mem_filter hc
      rw [hcc] at hcmem
      exact Hex.self_not_mem_getNeighbors f hcmem
    unfold occupiedIgnoring
    rw [stack_single, if_neg hcf]
    simp
  rw [if_neg (by rw [hcomm]; exact Bool.false_ne_true)]
  exact touchesHive_single f st n id

theorem beetleNeighbors_single {f : Hex} {st : List Insect} {id : Nat}
    (hst : st.length > 1) : getBeetleNeighbors [(f, st)] f id = [] := by
  unfold getBeetleNeighbors
  dsimp only
  rw [stack_single, if_pos rfl]
  rw [List.filter_eq_nil_iff]
  intro n hn
  have hnf : n ≠ f := by
    intro hc
    exact Hex.self_not_mem_getNeighbors f (hc ▸ hn)
  rw [if_pos hst, canBeetleMoveOnHive_single hnf]
  simp

theorem beetlePath_single {f t : Hex} {st : List Insect} {id : Nat}
    (hst : st.length > 1) :
    (findBeetlePath [(f, st)] f t id).success = false := by
  unfold findBeetlePath
  by_cases hd : f.distance t ≠ 1
  · rw [if_pos hd]
  · rw [if_neg hd, beetleNeighbors_single hst]
    simp

theorem hopperLandingAux_zero (b : Board) (id : Nat) (d : Hex)
    (fuel : Nat) (cur : Hex) (h : hopperEmptyAt b id cur = true) :
    findHopperLandingAux b id d fuel cur 0 = none := by
  cases fuel with
  | zero => rfl
  | succ n =>
    unfold findHopperLandingAux
    rw [if_pos h, if_pos rfl]

theorem hopperPath_single {f t : Hex} {st : List Insect} {id : Nat} :
    (findHopperPath [(f, st)] f t id).success = false := by
  unfold findHopperPath
  rw [List.find?_eq_none.2]
  intro d hd
  simp only [decide_eq_true_eq]
  unfold findHopperLanding
  rw [hopperLandingAux_zero]
  · simp
  · have hne : f.add d ≠ f := by
      rw [hexRay_one]
      exact hexRay_ne hd f (le_refl 1)
    unfold hopperEmptyAt
    rw [occupied_single_ne hne]
    rfl

theorem spiderBFSAux_empty_queue (b : Board) (t : Hex) (id : Nat)
    (fuel : Nat) (v : List (Hex × Nat)) (acc : List (List Hex)) :
    spiderBFSAux b t id fuel [] v acc = acc := by
  cases fuel <;> rfl

theorem spiderBFSAux_single (f : Hex) (st : List Insect) (t : Hex)
    (id : Nat) (fuel : Nat) (v : List (Hex × Nat))
    (acc : List (List Hex)) :
    spiderBFSAux [(f, st)] t id fuel [(f, [f])] v acc = acc := by
  cases fuel with
  | zero => rfl
  | succ n =>
    unfold spiderBFSAux
    simp only [List.length_cons, List.length_nil, Nat.zero_add,
      Nat.sub_self]
    rw [if_neg (by omega), if_pos (by omega), walking_single]
    simp only [List.filter_nil, List.map_nil, List.append_nil,
      List.nil_append]
    exact spiderBFSAux_empty_queue _ _ _ _ _ _

theorem spiderPath_single {f t : Hex} {st : List Insect} {id : Nat} :
    (findSpiderPath [(f, st)] f t id).success = false := by
  unfold findSpiderPath
  rw [spiderBFSAux_single]

theorem ladybugBFSAux_empty_queue (b : Board) (o t : Hex) (id : Nat)
    (fuel : Nat) (v : List (Hex × Nat)) (acc : List (List Hex)) :
    ladybugBFSAux b o t id fuel [] v acc = acc := by
  cases fuel <;> rfl

theorem ladybugStepOne_single (f : Hex) (st : List Insect) (id : Nat) :
    getLadybugStepOneNeighbors [(f, st)] f id = [] := by
  unfold getLadybugStepOneNeighbors
  rw [List.filter_eq_nil_iff]
  intro n hn
  have hnf : n ≠ f := by
    intro hc
    exact Hex.self_not_mem_getNeighbors f (hc ▸ hn)
  rw [stack_single, if_neg hnf]
  simp

theorem ladybugPath_single {f t : Hex} {st : List Insect} {id : Nat} :
    (findLadybugPath [(f, st)] f t id).success = false := by
  unfold findLadybugPath
  have haux : ∀ fuel v acc,
      ladybugBFSAux [(f, st)] f t id fuel [(f, [f], 0)] v acc = acc := by
    intro fuel v acc
    cases fuel with
    | zero => rfl
    | succ n =>
      unfold ladybugBFSAux
      rw [if_neg (by omega), if_pos rfl, ladybugStepOne_single]
      simp only [List.filter_nil, List.map_nil, List.append_nil,
        List.nil_append]
      exact ladybugBFSAux_empty_queue _ _ _ _ _ _ _
  rw [haux]

theorem mosquitoAdjacent_single (f : Hex) (st : List Insect) (id : Nat) :
    getMosquitoAdjacentInsects [(f, st)] f id = [] := by
  unfold getMosquitoAdjacentInsects
  have hgen : ∀ (l : List Hex), (∀ n ∈ l, n ≠ f) →
      l.foldl (fun acc n =>
        match (Board.getInsectStack [(f, st)] n).getLast? with
        | none => acc
        | some top =>
          if top.id = id then acc
          else if top.insect = .mosquito then acc
          else if acc.contains top.insect then acc
          else acc ++ [top.insect]) [] = [] := by
    intro l hl
    induction l with
    | nil => rfl
    | cons a rest ih =>
      rw [List.foldl_cons]
      have ha : a ≠ f := hl a (by simp)
      rw [stack_single, if_neg ha]
      exact ih (fun n hn => hl n (List.mem_cons_of_mem a hn))
  apply hgen
  intro n hn hc
  exact Hex.self_not_mem_getNeighbors f (hc ▸ hn)

theorem mosquitoPath_single {f t : Hex} {st : List Insect} {id : Nat} :
    (findMosquitoPath [(f, st)] f t id).success = false := by
  unfold findMosquitoPath
  rw [mosquitoAdjacent_single]
  rfl

theorem canPillbugThrowPiece_self {b : Board} {f : Hex} {pid : Nat} :
    canPillbugThrowPiece b f f pid = false := by
  unfold canPillbugThrowPiece
  rw [if_pos]
  rw [Hex.distance_self]
  omega

theorem findPillbugThatCanThrow_single (f : Hex) (st : List Insect)
    (pid : Nat) (pl : Player) :
    findPillbugThatCanThrow [(f, st)] f pid pl = none := by
  unfold findPillbugThatCanThrow
  rw [List.findSome?_cons]
  cases hl : st.getLast? with
  | none => rfl
  | some top =>
    dsimp only
    by_cases hpp : top.player = pl ∧ top.insect = .pillbug
    · rw [if_pos hpp, if_neg (by
        rw [canPillbugThrowPiece_self]
        exact Bool.false_ne_true)]
      rfl
    · rw [if_neg hpp]
      rfl

theorem findMosquitoThatCanThrow_single (f : Hex) (st : List Insect)
    (pid : Nat) (pl : Player) :
    findMosquitoThatCanThrow [(f, st)] f pid pl = none := by
  unfold findMosquitoThatCanThrow
  rw [List.findSome?_cons]
  cases hl : st.getLast? with
  | none => rfl
  | some top =>
    dsimp only
    by_cases hpp : top.player = pl ∧ top.insect = .mosquito
    · rw [if_pos hpp, if_neg (by
        rw [mosquitoAdjacent_single]
        simp)]
      rfl
    · rw [if_neg hpp]
      rfl

theorem canMoveNormally_single_tall {s : GameState} {f target : Hex}
    {st : List Insect} {insect : Insect} (hb : s.board = [(f, st)])
    (hst : st.length ≥ 2) :
    canMoveNormally s insect f target = false := by
  have hstne : st ≠ [] := by
    intro hc
    rw [hc] at hst
    simp at hst
  unfold canMoveNormally
  rw [hb]
  by_cases hbeetle : insect.insect = .beetle
  · rw [if_neg (fun hc => hc.2 (Or.inl hbeetle))]
    dsimp only
    rw [if_neg (fun hc => by simpa using hc.2)]
    unfold canInsectReach
    rw [hbeetle]
    exact beetlePath_single (by omega)
  · have hclimb : (insect.insect = .beetle ∨ (insect.insect = .mosquito ∧
        canMosquitoClimbAsBeelle [(f, st)] f insect.id = true)) → False := by
      rintro (hc | ⟨-, hc⟩)
      · exact hbeetle hc
      · rw [show canMosquitoClimbAsBeelle [(f, st)] f insect.id = false
          from by
            unfold canMosquitoClimbAsBeelle
            rw [mosquitoAdjacent_single]
            rfl] at hc
        exact Bool.false_ne_true hc
    by_cases ht : target = f
    · have hocc : Board.isHexOccupied [(f, st)] target = true := by
        rw [Board.isHexOccupied, stack_single, if_pos ht]
        simpa using hstne
      rw [if_pos ⟨hocc, hclimb⟩]
    · have hocc : Board.isHexOccupied [(f, st)] target = false :=
        occupied_single_ne ht
      rw [if_neg (fun hc => by
        rw [hocc] at hc
        exact Bool.false_ne_true hc.1)]
      dsimp only
      rw [if_neg (fun hc => by simpa using hc.2)]
      unfold canInsectReach
      cases hk : insect.insect
      all_goals dsimp only
      · exact queenPath_single
      · exact antPath_single (fun hc => ht hc.symm)
      · exact absurd hk hbeetle
      · exact hopperPath_single
      · exact spiderPath_single
      · exact mosquitoPath_single
      · exact ladybugPath_single
      · exact pillbugPath_single

theorem isValidMove_single_tall {s : GameState} {f target : Hex}
    {st : List Insect} {insect : Insect} (hb : s.board = [(f, st)])
    (hst : st.length ≥ 2) :
    isValidMove s insect f target = false := by
  unfold isValidMove
  rw [List.any_eq_false]
  intro mt hmt
  unfold getAvailableMovementTypes at hmt
  rw [hb, findPillbugThatCanThrow_single, findMosquitoThatCanThrow_single]
    at hmt
  dsimp only at hmt
  simp only [ite_self, List.append_nil] at hmt
  by_cases hpl : insect.player = s.currentPlayer
  · rw [if_pos hpl] at hmt
    simp only [List.mem_singleton] at hmt
    subst hmt
    unfold canMoveUsingType
    rw [canMoveNormally_single_tall hb hst]
    simp
  · rw [if_neg hpl] at hmt
    cases hmt

theorem eq_singleton_of_mem_length {b : Board}
    {e : Hex × List Insect} (hlen : b.length ≤ 1) (he : e ∈ b) :
    b = [e] := by
  cases b with
  | nil => cases he
  | cons x t =>
    cases t with
    | nil =>
      rcases List.mem_singleton.1 he with rfl
      rfl
    | cons y u => simp at hlen

/-- Claim C1 (One-Hive): from any well-formed state whose occupied hexes
form one connected component, every action the engine commits — a
placement accepted by placeInsect or a move accepted by moveInsect —
leaves the occupied hexes again forming exactly one connected component
under hex adjacency. -/
theorem claim_C1 (s : GameState) (hWF : Board.WF s.board)
    (hconn : OneComponent (Board.keys s.board)) :
    (∀ (hex : Hex) (kind : InsectKind) (newId : Nat),
      (placeInsect s hex kind newId).2 = true →
      OneComponent (Board.keys (placeInsect s hex kind newId).1.board)) ∧
    (∀ (insect : Insect) (target : Hex),
      (moveInsect s insect target).2 = true →
      OneComponent (Board.keys (moveInsect s insect target).1.board)) := by
  constructor
  · intro hex kind newId h
    rcases placeInsect_commit h with ⟨hocc, hcan, hboard⟩
    rw [hboard]
    have hbne : s.board ≠ [] := by
      intro hc
      exact hconn.1 (by rw [hc]; rfl)
    have hlen : s.board.length > 0 := by
      cases hb : s.board with
      | nil => exact absurd hb hbne
      | cons x t => simp
    rcases canPlaceInsect_neighbor hWF hbne (hcan hlen) with ⟨n, hn, hnk⟩
    exact OneComponent.insert hconn hnk hn
      (fun y => Board.keys_addInsectToHex_mem s.board hex _ y)
  · intro insect target h
    rcases moveInsect_commit h with ⟨e, hfind, hvalid, hcedge, hboard⟩
    have he : e ∈ s.board := List.mem_of_find?_eq_some hfind
    have hin : e.2.any (fun bug => bug.id = insect.id) = true := by
      simpa using List.find?_some hfind
    have hkeys : Board.keys (s.board.spliceInsect e.1 insect.id) =
        remainingAfter s.board e.1 := Board.keys_spliceInsect hWF he hin
    have hmem : ∀ y, y ∈ Board.keys ((s.board.spliceInsect e.1
        insect.id).addInsectToHex target insect) ↔
        y ∈ remainingAfter s.board e.1 ∨ y = target := by
      intro y
      rw [Board.keys_addInsectToHex_mem, hkeys]
    rw [hboard]
    rcases isValidMove_attach hvalid with ⟨n, hn, hnf, hnk⟩ | hsmall
    · have hnrem : n ∈ remainingAfter s.board e.1 :=
        mem_remainingAfter_of_ne hnk hnf
      rcases isHiveConnectedWithout_sound hWF hcedge with hre | hrc
      · rw [hre] at hnrem
        cases hnrem
      · exact OneComponent.insert hrc hnrem hn hmem
    · have hbe : s.board = [e] := eq_singleton_of_mem_length hsmall he
      by_cases hstack : e.2.length ≥ 2
      · exfalso
        have hfalse := @isValidMove_single_tall s e.1 target e.2 insect
          (by rw [hbe]) hstack
        rw [hvalid] at hfalse
        cases hfalse
      · have hrem : remainingAfter s.board e.1 = [] := by
          rw [hbe]
          unfold remainingAfter
          rw [List.filterMap_cons]
          rw [if_pos rfl, if_neg (by omega)]
          rfl
        apply singleton_oneComponent (x := target)
        intro y
        rw [hmem y, hrem]
        simp

theorem claim_C1_witness :
    Board.WF sOneQueen.board ∧
    OneComponent (Board.keys sOneQueen.board) ∧
    (placeInsect sOneQueen ⟨1, 0⟩ .ant 7).2 = true ∧
    OneComponent
      (Board.keys (placeInsect sOneQueen ⟨1, 0⟩ .ant 7).1.board) := by
  have hWF : Board.WF sOneQueen.board := by decide
  have hconn : OneComponent (Board.keys sOneQueen.board) := by
    apply singleton_oneComponent (x := (⟨0, 0⟩ : Hex))
    intro y
    rw [show Board.keys sOneQueen.board = [⟨0, 0⟩] from rfl]
    exact List.mem_singleton
  exact ⟨hWF, hconn, by decide,
    (claim_C1 sOneQueen hWF hconn).1 ⟨1, 0⟩ .ant 7 (by decide)⟩

end Hive
